import Mathlib

/-!
Verification of the 3D-crossword core (sketch.js): grid data model,
slice-connectivity-constrained generator, clue extraction, puzzle-record
ingestion and answer binding.  All definitions are shallow embeddings of the
JavaScript source; stateful loops become folds or structural recursions, the
mutable world array becomes a function grid with explicit pointwise update,
and the console.error diagnostics become an explicit diagnostic list.
-/

set_option maxHeartbeats 1000000

namespace Cross3D

/-- One grid unit, mirroring the JS record
{ block, ch, sol, numR, numD, numI }.  Empty JS strings for ch / sol are
modelled as none. -/
structure Cell where
  block : Bool
  ch : Option Char
  sol : Option Char
  numR : Nat
  numD : Nat
  numI : Nat
deriving DecidableEq, Repr

/-- The freshly allocated cell { block:false, ch:"", sol:"", numR:0, numD:0, numI:0 }. -/
def Cell.empty : Cell := ⟨false, none, none, 0, 0, 0⟩

/-- A coordinate triple as it appears in puzzle records (untrusted, may be
out of range, hence integers). -/
structure Coord3 where
  x : Int
  y : Int
  z : Int
deriving DecidableEq, Repr

/-- The three word directions: R = paremale (+X), D = alla (+Y), I = sisse (+Z). -/
inductive Dir where
  | R
  | D
  | I
deriving DecidableEq, Repr

def Dir.dx : Dir → Int
  | .R => 1
  | .D => 0
  | .I => 0

def Dir.dy : Dir → Int
  | .R => 0
  | .D => 1
  | .I => 0

def Dir.dz : Dir → Int
  | .R => 0
  | .D => 0
  | .I => 1

/-- One unit step in direction d, as in the word-walking loops
x += dx; y += dy; z += dz. -/
def Coord3.stepBy (c : Coord3) (d : Dir) : Coord3 :=
  ⟨c.x + d.dx, c.y + d.dy, c.z + d.dz⟩

/-- i unit steps in direction d from c. -/
def Coord3.stepN (c : Coord3) (d : Dir) (i : Nat) : Coord3 :=
  ⟨c.x + i * d.dx, c.y + i * d.dy, c.z + i * d.dz⟩

/-- The dense 3D world plus its dimensions: world[z][y][x] becomes a total
function on natural indices (only indices below the dimensions are ever
meaningful). -/
structure Grid where
  NX : Nat
  NY : Nat
  NZ : Nat
  cells : Nat → Nat → Nat → Cell

/-- cell(x, y, z), on in-range natural indices. -/
def Grid.cell (g : Grid) (x y z : Nat) : Cell := g.cells x y z

/-- inBounds(x, y, z): x >= 0 && x < NX && y >= 0 && y < NY && z >= 0 && z < NZ. -/
def inBounds (g : Grid) (x y z : Int) : Bool :=
  0 ≤ x && x < (g.NX : Int) && (0 ≤ y && y < (g.NY : Int)) && (0 ≤ z && z < (g.NZ : Int))

/-- inBounds on a record coordinate. -/
def inBoundsAt (g : Grid) (c : Coord3) : Bool := inBounds g c.x c.y c.z

/-- Cell lookup through a record coordinate (used only behind inBounds
guards, exactly like world[c.z][c.y][c.x] in the source). -/
def Grid.cellAt (g : Grid) (c : Coord3) : Cell :=
  g.cell c.x.toNat c.y.toNat c.z.toNat

/-- Pointwise update of one cell of the world array. -/
def Grid.modifyCell (g : Grid) (x y z : Nat) (f : Cell → Cell) : Grid :=
  { g with cells := fun a b c => if a = x ∧ b = y ∧ c = z then f (g.cells a b c) else g.cells a b c }

/-- Update through a record coordinate. -/
def Grid.modifyAt (g : Grid) (c : Coord3) (f : Cell → Cell) : Grid :=
  g.modifyCell c.x.toNat c.y.toNat c.z.toNat f

/-- The freshly built all-open world of loadPuzzleFromJSON / generatePuzzleJSON. -/
def emptyWorld (nx ny nz : Nat) : Grid :=
  ⟨nx, ny, nz, fun _ _ _ => Cell.empty⟩

/-- All in-range (x, y, z) triples in canonical scan order (z outermost,
then y, then x), mirroring the nested for-loops of the source. -/
def scanCoords (nx ny nz : Nat) : List (Nat × Nat × Nat) :=
  ((List.range nz) ×ˢ ((List.range ny) ×ˢ (List.range nx))).map fun t => (t.2.2, t.2.1, t.1)

/-- All (u, v) pairs of a 2D slice in canonical scan order (v outermost),
mirroring the for-v for-u loops of the connectivity checks. -/
def cells2D (w h : Nat) : List (Nat × Nat) :=
  ((List.range h) ×ˢ (List.range w)).map fun t => (t.2, t.1)

/-- startsR: (x === 0 || cell(x-1,y,z).block) && (x+1 < NX && !cell(x+1,y,z).block). -/
def startsR (g : Grid) (x y z : Nat) : Bool :=
  (decide (x = 0) || (g.cell (x - 1) y z).block) &&
    (decide (x + 1 < g.NX) && !(g.cell (x + 1) y z).block)

/-- startsD: (y === 0 || cell(x,y-1,z).block) && (y+1 < NY && !cell(x,y+1,z).block). -/
def startsD (g : Grid) (x y z : Nat) : Bool :=
  (decide (y = 0) || (g.cell x (y - 1) z).block) &&
    (decide (y + 1 < g.NY) && !(g.cell x (y + 1) z).block)

/-- startsI: (z === 0 || cell(x,y,z-1).block) && (z+1 < NZ && !cell(x,y,z+1).block). -/
def startsI (g : Grid) (x y z : Nat) : Bool :=
  (decide (z = 0) || (g.cell x y (z - 1)).block) &&
    (decide (z + 1 < g.NZ) && !(g.cell x y (z + 1)).block)

/-- The word-start test for a given direction. -/
def startsAt (g : Grid) (d : Dir) (x y z : Nat) : Bool :=
  match d with
  | .R => startsR g x y z
  | .D => startsD g x y z
  | .I => startsI g x y z

/-- The fixed per-direction Estonian hint defaults of the source. -/
def defaultHint : Dir → String
  | .R => "paremale"
  | .D => "alla"
  | .I => "sisse"

/-- Upper bound on the length of any run starting at c in direction d:
the remaining room to the far boundary along the axis of d.  Used as
structural fuel for the two while-loops wordLen / readWordFromSolution;
each in-bounds step shrinks it by exactly one, so the fuel never runs out. -/
def runBound (g : Grid) (c : Coord3) (d : Dir) : Nat :=
  match d with
  | .R => ((g.NX : Int) - c.x).toNat
  | .D => ((g.NY : Int) - c.y).toNat
  | .I => ((g.NZ : Int) - c.z).toNat

def wordLenAux (g : Grid) (d : Dir) : Nat → Coord3 → Nat
  | 0, _ => 0
  | fuel + 1, c =>
    if inBoundsAt g c && !(g.cellAt c).block then wordLenAux g d fuel (c.stepBy d) + 1
    else 0

/-- wordLen(x,y,z,dx,dy,dz): count open cells from c while in bounds. -/
def wordLen (g : Grid) (c : Coord3) (d : Dir) : Nat :=
  wordLenAux g d (runBound g c d) c

def readWordFromSolutionAux (g : Grid) (d : Dir) : Nat → Coord3 → List Char
  | 0, _ => []
  | fuel + 1, c =>
    if inBoundsAt g c && !(g.cellAt c).block then
      ((g.cellAt c).sol.getD '?') :: readWordFromSolutionAux g d fuel (c.stepBy d)
    else []

/-- readWordFromSolution(start, dx, dy, dz): the solution letters along the
maximal run from start, an empty letter rendered as the placeholder. -/
def readWordFromSolution (g : Grid) (c : Coord3) (d : Dir) : List Char :=
  readWordFromSolutionAux g d (runBound g c d) c

/-- A clue record as kept in the clues.R / clues.D / clues.I collections. -/
structure Clue where
  n : Nat
  start : Coord3
  len : Nat
  hint : Option String
  answer : Option (List Char)
deriving DecidableEq, Repr

/-- The three per-direction clue collections. -/
structure Clues where
  R : List Clue
  D : List Clue
  I : List Clue
deriving DecidableEq, Repr

def Clues.ofDir (cl : Clues) : Dir → List Clue
  | .R => cl.R
  | .D => cl.D
  | .I => cl.I

def Clues.allList (cl : Clues) : List Clue := cl.R ++ cl.D ++ cl.I

/-- A words[] entry of a Format A record. -/
structure WordRec where
  dir : Dir
  start : Coord3
  answer : List Char
  clue : Option String
deriving DecidableEq, Repr

/-- A solution[] entry of a Format B record. -/
structure SolEntry where
  x : Int
  y : Int
  z : Int
  ch : Option Char
deriving DecidableEq, Repr

/-- The console.error diagnostics of the ingestion path, made explicit. -/
inductive Diag where
  | wordOutOfBounds (w : WordRec) (c : Coord3)
  | wordHitsBlock (w : WordRec) (c : Coord3)
  | crossingConflict (w : WordRec) (c : Coord3) (had wants : Char)
deriving DecidableEq, Repr

def Diag.isConflict : Diag → Bool
  | .crossingConflict _ _ _ _ => true
  | _ => false

/-- toUpperCase on an answer string. -/
def toUpperAnswer (l : List Char) : List Char := l.map Char.toUpper

def Grid.setSolAt (g : Grid) (c : Coord3) (ch : Char) : Grid :=
  g.modifyAt c fun ce => { ce with sol := some ch }

/-- The per-word write loop of Format A ingestion: walk the run, stop on the
first out-of-bounds or blocked cell (reporting it), report a crossing
conflict when a different letter is already present, always overwrite. -/
def placeWordGo (w : WordRec) : Grid → Coord3 → List Char → Grid × List Diag
  | g, _, [] => (g, [])
  | g, c, ch :: rest =>
    if !(inBoundsAt g c) then (g, [Diag.wordOutOfBounds w c])
    else if (g.cellAt c).block then (g, [Diag.wordHitsBlock w c])
    else
      let ds0 :=
        match (g.cellAt c).sol with
        | some had => if had ≠ ch then [Diag.crossingConflict w c had ch] else []
        | none => []
      let out := placeWordGo w (g.setSolAt c ch) (c.stepBy w.dir) rest
      (out.1, ds0 ++ out.2)

def placeWord (g : Grid) (w : WordRec) : Grid × List Diag :=
  placeWordGo w g w.start (toUpperAnswer w.answer)

def placeWords (g : Grid) (ws : List WordRec) : Grid × List Diag :=
  ws.foldl (fun acc w =>
    let out := placeWord acc.1 w
    (out.1, acc.2 ++ out.2)) (g, [])

/-- The number of crossing conflicts a word walk reports against a FIXED
grid: one per position whose present solution letter differs from the
letter being written there.  On a clean run (all positions in-bounds and
open) this is exactly the conflict count of placeWordGo, because the walk
never revisits a cell. -/
def conflictsFrom (g : Grid) (d : Dir) : Coord3 → List Char → Nat
  | _, [] => 0
  | c, ch :: rest =>
    (match (g.cellAt c).sol with
      | some had => if had ≠ ch then 1 else 0
      | none => 0) + conflictsFrom g d (c.stepBy d) rest

/-- The startToNumber map (string-keyed in JS; coordinate triples encode
injectively into the JS keys, so an association list on the triple is the
faithful model). -/
def lookupStart (m : List (Coord3 × Nat)) (k : Coord3) : Option Nat :=
  (m.find? fun e => decide (e.1 = k)).map (·.2)

/-- One step of the clue-building loop over words[] of a Format A record:
same start cell gets the same number, a fresh start gets the next number. -/
def buildCluesAStep (acc : Clues × List (Coord3 × Nat) × Nat) (w : WordRec) :
    Clues × List (Coord3 × Nat) × Nat :=
  let cl := acc.1
  let m := acc.2.1
  let nextN := acc.2.2
  let pick : Nat × List (Coord3 × Nat) × Nat :=
    match lookupStart m w.start with
    | some n => (n, m, nextN)
    | none => (nextN, m ++ [(w.start, nextN)], nextN + 1)
  let c : Clue :=
    ⟨pick.1, w.start, w.answer.length,
      some (match w.clue with | some s => s | none => defaultHint w.dir),
      some (toUpperAnswer w.answer)⟩
  match w.dir with
  | .R => ({ cl with R := cl.R ++ [c] }, pick.2.1, pick.2.2)
  | .D => ({ cl with D := cl.D ++ [c] }, pick.2.1, pick.2.2)
  | .I => ({ cl with I := cl.I ++ [c] }, pick.2.1, pick.2.2)

def buildCluesA (ws : List WordRec) : Clues × List (Coord3 × Nat) × Nat :=
  ws.foldl buildCluesAStep (⟨[], [], []⟩, [], 1)

/-- setNum(kind, c): write the sequence number of clue c onto the matching
per-direction field of its start cell, skipping out-of-bounds starts. -/
def setNum (kind : Dir) (c : Clue) (g : Grid) : Grid :=
  if inBoundsAt g c.start then
    g.modifyAt c.start fun ce =>
      match kind with
      | .R => { ce with numR := c.n }
      | .D => { ce with numD := c.n }
      | .I => { ce with numI := c.n }
  else g

/-- The three setNum loops (R clues, then D, then I). -/
def setNums (g : Grid) (cl : Clues) : Grid :=
  let g1 := cl.R.foldl (fun g c => setNum .R c g) g
  let g2 := cl.D.foldl (fun g c => setNum .D c g) g1
  cl.I.foldl (fun g c => setNum .I c g) g2

/-- clearNumbers(): zero every numbering field of every in-range cell. -/
def clearNumbers (g : Grid) : Grid :=
  { g with
    cells := fun x y z =>
      if x < g.NX ∧ y < g.NY ∧ z < g.NZ then
        { g.cells x y z with numR := 0, numD := 0, numI := 0 }
      else g.cells x y z }

/-- The blocks loop of loadPuzzleFromJSON: mark each in-range entry, skip the
rest. -/
def applyBlocks (g : Grid) (bs : List Coord3) : Grid :=
  bs.foldl (fun g b =>
    if inBoundsAt g b then g.modifyAt b fun ce => { ce with block := true }
    else g) g

/-- The solution[] loop of Format B: write each entry onto its cell, skipping
out-of-bounds entries and blocked cells. -/
def applySolution (g : Grid) (ss : List SolEntry) : Grid :=
  ss.foldl (fun g s =>
    if !(inBounds g s.x s.y s.z) then g
    else if (g.cellAt ⟨s.x, s.y, s.z⟩).block then g
    else g.modifyAt ⟨s.x, s.y, s.z⟩ fun ce => { ce with sol := s.ch }) g

/-- ensureHintFields(): the loop filling missing R hints is commented out in
the source (replaced by a console.log), so only D and I hints are filled. -/
def ensureHintFields (cl : Clues) : Clues :=
  { R := cl.R,
    D := cl.D.map fun c => if c.hint.getD "" = "" then { c with hint := some "alla" } else c,
    I := cl.I.map fun c => if c.hint.getD "" = "" then { c with hint := some "sisse" } else c }

/-- One step of the clue-extraction scan: at an open cell, test the three
start conditions, draw a fresh shared number if any holds, and append one
clue per starting direction with the run length from that cell. -/
def cluesStep (g : Grid) (acc : Clues × Nat) (p : Nat × Nat × Nat) : Clues × Nat :=
  let x := p.1
  let y := p.2.1
  let z := p.2.2
  if (g.cell x y z).block then acc
  else
    let sR := startsR g x y z
    let sD := startsD g x y z
    let sI := startsI g x y z
    let n := if sR || sD || sI then acc.2 + 1 else acc.2
    let c3 : Coord3 := ⟨x, y, z⟩
    let cl1 :=
      if sR then { acc.1 with R := acc.1.R ++ [⟨n, c3, wordLen g c3 .R, some "paremale", none⟩] }
      else acc.1
    let cl2 :=
      if sD then { cl1 with D := cl1.D ++ [⟨n, c3, wordLen g c3 .D, some "alla", none⟩] }
      else cl1
    let cl3 :=
      if sI then { cl2 with I := cl2.I ++ [⟨n, c3, wordLen g c3 .I, some "sisse", none⟩] }
      else cl2
    (cl3, n)

/-- computeCluesFromWorld(): scan all cells (z outer, y middle, x inner) and
collect the three directional clue lists with shared numbering. -/
def computeCluesFromWorld (g : Grid) : Clues :=
  ((scanCoords g.NX g.NY g.NZ).foldl (cluesStep g) (⟨[], [], []⟩, 0)).1

/-- computeDirectionalCluesJSON(): the generation-time twin of
computeCluesFromWorld; the source duplicates the same scan. -/
def computeDirectionalCluesJSON (g : Grid) : Clues :=
  ((scanCoords g.NX g.NY g.NZ).foldl (cluesStep g) (⟨[], [], []⟩, 0)).1

/-- attachAnswersToClues(): re-derive every answer from the solution grid. -/
def attachAnswersToClues (g : Grid) (cl : Clues) : Clues :=
  { R := cl.R.map fun c => { c with answer := some (readWordFromSolution g c.start .R) },
    D := cl.D.map fun c => { c with answer := some (readWordFromSolution g c.start .D) },
    I := cl.I.map fun c => { c with answer := some (readWordFromSolution g c.start .I) } }

/-- An external puzzle record: dims, blocks, and either words[] (Format A)
or solution[] with an optional clues object (Format B).  A per-direction
list absent in the JS clues object is modelled as []. -/
structure PuzzleRecord where
  nx : Nat
  ny : Nat
  nz : Nat
  blocks : List Coord3
  words : List WordRec
  solution : List SolEntry
  clues : Option (List Clue × List Clue × List Clue)
deriving Repr

/-- js.clues && (js.clues.R?.length || js.clues.D?.length || js.clues.I?.length). -/
def hasCluesB (r : PuzzleRecord) : Bool :=
  match r.clues with
  | none => false
  | some t => !t.1.isEmpty || !t.2.1.isEmpty || !t.2.2.isEmpty

/-- The {world, clues, diagnostics} produced by one load. -/
structure LoadResult where
  grid : Grid
  clues : Clues
  diags : List Diag

/-- loadPuzzleFromJSON(js): build the empty world, mark blocks, clear
numbering, then route to Format A (words[] nonempty) or Format B. -/
def loadPuzzleFromJSON (r : PuzzleRecord) : LoadResult :=
  let g1 := clearNumbers (applyBlocks (emptyWorld r.nx r.ny r.nz) r.blocks)
  if r.words.isEmpty then
    let g2 := applySolution g1 r.solution
    let cl0 :=
      if hasCluesB r then
        match r.clues with
        | some t => ⟨t.1, t.2.1, t.2.2⟩
        | none => ⟨[], [], []⟩
      else computeCluesFromWorld g2
    let cl1 := ensureHintFields cl0
    let g3 := setNums g2 cl1
    ⟨g3, attachAnswersToClues g3 cl1, []⟩
  else
    let out := placeWords g1 r.words
    let cl0 := (buildCluesA r.words).1
    let g3 := setNums out.1 cl0
    ⟨g3, attachAnswersToClues g3 cl0, out.2⟩

/-- Set / clear the block flag of one cell. -/
def Grid.setBlock (g : Grid) (x y z : Nat) (b : Bool) : Grid :=
  g.modifyCell x y z fun ce => { ce with block := b }

/-- sliceOpenCountXY(z): open cells of the fixed-z slice. -/
def sliceOpenCountXY (g : Grid) (z : Nat) : Nat :=
  (cells2D g.NX g.NY).countP fun p => !(g.cell p.1 p.2 z).block

/-- sliceOpenCountXZ(y): open cells of the fixed-y slice. -/
def sliceOpenCountXZ (g : Grid) (y : Nat) : Nat :=
  (cells2D g.NX g.NZ).countP fun p => !(g.cell p.1 y p.2).block

/-- sliceOpenCountYZ(x): open cells of the fixed-x slice. -/
def sliceOpenCountYZ (g : Grid) (x : Nat) : Nat :=
  (cells2D g.NY g.NZ).countP fun p => !(g.cell x p.1 p.2).block

/-- One round of the flood fill over a w × h slice: a cell becomes visited
when it is open and has a visited 4-neighbor (bounds-checked, exactly the
four unit offsets of the source). -/
def expand2D (w h : Nat) (op : Nat → Nat → Bool) (vis : Nat → Nat → Bool) :
    Nat → Nat → Bool :=
  fun u v =>
    vis u v ||
      (op u v &&
        ((decide (u + 1 < w) && vis (u + 1) v) || (decide (0 < u) && vis (u - 1) v) ||
          (decide (v + 1 < h) && vis u (v + 1)) || (decide (0 < v) && vis u (v - 1))))

def floodIter (w h : Nat) (op : Nat → Nat → Bool) : Nat → (Nat → Nat → Bool) → Nat → Nat → Bool
  | 0, vis => vis
  | n + 1, vis => floodIter w h op n (expand2D w h op vis)

/-- The slice-connectivity check of isConnectedXY / XZ / YZ over a generic
w × h slice: seed at the first open cell in scan order, flood-fill (the
stack-driven fill of the source computes the same visited set; w * h rounds
reach its fixpoint), and compare visited count with open count.  A slice
with no open cell fails. -/
def isConnected2D (w h : Nat) (op : Nat → Nat → Bool) : Bool :=
  let cs := cells2D w h
  match cs.find? (fun p => op p.1 p.2) with
  | none => false
  | some s =>
    let vis := floodIter w h op (w * h) fun u v => decide (u = s.1) && decide (v = s.2)
    decide (cs.countP (fun p => vis p.1 p.2) = cs.countP (fun p => op p.1 p.2))

def isConnectedXY (g : Grid) (zFix : Nat) : Bool :=
  isConnected2D g.NX g.NY fun u v => !(g.cell u v zFix).block

def isConnectedXZ (g : Grid) (yFix : Nat) : Bool :=
  isConnected2D g.NX g.NZ fun u v => !(g.cell u yFix v).block

def isConnectedYZ (g : Grid) (xFix : Nat) : Bool :=
  isConnected2D g.NY g.NZ fun u v => !(g.cell xFix u v).block

/-- allSlicesConnected(): every slice of every one of the three families. -/
def allSlicesConnected (g : Grid) : Bool :=
  ((List.range g.NZ).all fun z => isConnectedXY g z) &&
    ((List.range g.NY).all fun y => isConnectedXZ g y) &&
    ((List.range g.NX).all fun x => isConnectedYZ g x)

/-- The acceptance test of one generator trial after tentatively blocking
(x, y, z): the three slice open-counts through the cell and full
connectivity. -/
def genAccept (minOpen : Nat) (g : Grid) (x y z : Nat) : Bool :=
  decide (minOpen ≤ sliceOpenCountXY g z) && decide (minOpen ≤ sliceOpenCountXZ g y) &&
    decide (minOpen ≤ sliceOpenCountYZ g x) && allSlicesConnected g

/-- generateConnectedBlocks(): the trial loop, with the stream of random
picks supplied as a list whose length is the remaining attempt budget
(maxTries); returns the grid, the accepted-block counter, and the number of
tries consumed. -/
def generateConnectedBlocks (minOpen target : Nat) :
    List (Nat × Nat × Nat) → Grid → Nat → Nat → Grid × Nat × Nat
  | [], g, blocks, tries => (g, blocks, tries)
  | p :: rest, g, blocks, tries =>
    if blocks < target then
      if (g.cell p.1 p.2.1 p.2.2).block then
        generateConnectedBlocks minOpen target rest g blocks (tries + 1)
      else
        let g' := g.setBlock p.1 p.2.1 p.2.2 true
        if genAccept minOpen g' p.1 p.2.1 p.2.2 then
          generateConnectedBlocks minOpen target rest g' (blocks + 1) (tries + 1)
        else
          generateConnectedBlocks minOpen target rest g blocks (tries + 1)
    else (g, blocks, tries)

/-- Math.floor(total * targetBlockFrac). -/
def targetBlocks (frac : ℚ) (total : Nat) : Nat := (⌊(total : ℚ) * frac⌋).toNat

/-- The blocks list collected by generatePuzzleJSON after placement. -/
def blocksList (g : Grid) : List (Nat × Nat × Nat) :=
  (scanCoords g.NX g.NY g.NZ).filter fun p => (g.cell p.1 p.2.1 p.2.2).block

/-- The number of blocked cells of the world. -/
def countBlocks (g : Grid) : Nat := (blocksList g).length

/-- pseudoLetter(x,y,z): the deterministic generation-time solution letter. -/
def pseudoLetter (x y z : Nat) : Char :=
  Char.ofNat (65 + (x * 73 + y * 151 + z * 199 + 17) % 26)

/-- Solution letter visible at a record coordinate (none when out of
bounds); spec-side helper for stating answer binding. -/
def solAt (g : Grid) (c : Coord3) : Option Char :=
  if inBoundsAt g c then (g.cellAt c).sol else none

/-- Modelled from the spec (4.6): the concatenation of the solution letters
of the cells along a run of the given number of steps from a start cell in a
direction, an empty letter contributing the placeholder character. -/
def specLenConcat (g : Grid) (s : Coord3) (d : Dir) (len : Nat) : List Char :=
  (List.range len).map fun i => (solAt g (s.stepN d i)).getD '?'

/-- Modelled from the spec (4.6): the same concatenation over the maximal
run (until a block or the boundary). -/
def specRunConcat (g : Grid) (s : Coord3) (d : Dir) : List Char :=
  specLenConcat g s d (wordLen g s d)

/-- The record with declared dimensions and nothing else. -/
def emptyRecord (nx ny nz : Nat) : PuzzleRecord :=
  ⟨nx, ny, nz, [], [], [], none⟩

/-- The per-direction numbering field of a cell. -/
def Cell.numOf (ce : Cell) : Dir → Nat
  | .R => ce.numR
  | .D => ce.numD
  | .I => ce.numI

/-- The grid after the blocks phase and numbering clear, shared by both
load routes. -/
def loadBase (r : PuzzleRecord) : Grid :=
  clearNumbers (applyBlocks (emptyWorld r.nx r.ny r.nz) r.blocks)

/-- The preceding cell along d is off-grid or blocked (condition (a) of the
word-start test). -/
def prevBlockedOrOffGrid (g : Grid) (d : Dir) (x y z : Nat) : Bool :=
  match d with
  | .R => decide (x = 0) || (g.cell (x - 1) y z).block
  | .D => decide (y = 0) || (g.cell x (y - 1) z).block
  | .I => decide (z = 0) || (g.cell x y (z - 1)).block

/-- The following cell along d is on-grid and open (condition (b) of the
word-start test). -/
def nextOpenInDir (g : Grid) (d : Dir) (x y z : Nat) : Bool :=
  match d with
  | .R => decide (x + 1 < g.NX) && !(g.cell (x + 1) y z).block
  | .D => decide (y + 1 < g.NY) && !(g.cell x (y + 1) z).block
  | .I => decide (z + 1 < g.NZ) && !(g.cell x y (z + 1)).block

theorem mem_scanCoords {nx ny nz : Nat} {p : Nat × Nat × Nat} :
    p ∈ scanCoords nx ny nz ↔ p.1 < nx ∧ p.2.1 < ny ∧ p.2.2 < nz := by
  obtain ⟨x, y, z⟩ := p
  constructor
  · intro hp
    simp only [scanCoords, List.mem_map] at hp
    obtain ⟨⟨a, b, c⟩, ht, heq⟩ := hp
    rw [List.mem_product] at ht
    obtain ⟨h1, ht2⟩ := ht
    rw [List.mem_product] at ht2
    obtain ⟨h2, h3⟩ := ht2
    simp only [Prod.mk.injEq] at heq
    obtain ⟨rfl, rfl, rfl⟩ := heq
    simp only [List.mem_range] at h1 h2 h3
    exact ⟨h3, h2, h1⟩
  · rintro ⟨h1, h2, h3⟩
    simp only [scanCoords, List.mem_map]
    refine ⟨(z, y, x), ?_, rfl⟩
    rw [List.mem_product, List.mem_product]
    simp only [List.mem_range]
    exact ⟨h3, h2, h1⟩

theorem nodup_scanCoords (nx ny nz : Nat) : (scanCoords nx ny nz).Nodup := by
  apply List.Nodup.map
  · intro a b hab
    simp only [Prod.mk.injEq] at hab
    obtain ⟨h1, h2, h3⟩ := hab
    exact Prod.ext h3 (Prod.ext h2 h1)
  · exact (List.nodup_range nz).product ((List.nodup_range ny).product (List.nodup_range nx))

theorem mem_cells2D {w h : Nat} {p : Nat × Nat} :
    p ∈ cells2D w h ↔ p.1 < w ∧ p.2 < h := by
  obtain ⟨u, v⟩ := p
  constructor
  · intro hp
    simp only [cells2D, List.mem_map] at hp
    obtain ⟨⟨a, b⟩, ht, heq⟩ := hp
    rw [List.mem_product] at ht
    simp only [List.mem_range] at ht
    simp only [Prod.mk.injEq] at heq
    obtain ⟨rfl, rfl⟩ := heq
    exact ⟨ht.2, ht.1⟩
  · rintro ⟨h1, h2⟩
    simp only [cells2D, List.mem_map]
    refine ⟨(v, u), ?_, rfl⟩
    rw [List.mem_product]
    simp only [List.mem_range]
    exact ⟨h2, h1⟩

theorem length_cells2D (w h : Nat) : (cells2D w h).length = h * w := by
  simp [cells2D, List.length_product]

@[simp] theorem modifyCell_NX (g : Grid) (x y z : Nat) (f : Cell → Cell) :
    (g.modifyCell x y z f).NX = g.NX := rfl

@[simp] theorem modifyCell_NY (g : Grid) (x y z : Nat) (f : Cell → Cell) :
    (g.modifyCell x y z f).NY = g.NY := rfl

@[simp] theorem modifyCell_NZ (g : Grid) (x y z : Nat) (f : Cell → Cell) :
    (g.modifyCell x y z f).NZ = g.NZ := rfl

theorem modifyCell_cells (g : Grid) (x y z : Nat) (f : Cell → Cell) (a b c : Nat) :
    (g.modifyCell x y z f).cells a b c =
      if a = x ∧ b = y ∧ c = z then f (g.cells a b c) else g.cells a b c := rfl

theorem modifyCell_self (g : Grid) (x y z : Nat) (f : Cell → Cell) :
    (g.modifyCell x y z f).cells x y z = f (g.cells x y z) := by
  simp [modifyCell_cells]

theorem modifyCell_other (g : Grid) (x y z : Nat) (f : Cell → Cell) {a b c : Nat}
    (h : ¬(a = x ∧ b = y ∧ c = z)) :
    (g.modifyCell x y z f).cells a b c = g.cells a b c := by
  simp [modifyCell_cells, h]

theorem inBounds_iff {g : Grid} {x y z : Int} :
    inBounds g x y z = true ↔
      0 ≤ x ∧ x < (g.NX : Int) ∧ 0 ≤ y ∧ y < (g.NY : Int) ∧ 0 ≤ z ∧ z < (g.NZ : Int) := by
  simp only [inBounds, Bool.and_eq_true, decide_eq_true_eq]
  tauto

theorem inBoundsAt_iff {g : Grid} {c : Coord3} :
    inBoundsAt g c = true ↔
      0 ≤ c.x ∧ c.x < (g.NX : Int) ∧ 0 ≤ c.y ∧ c.y < (g.NY : Int) ∧
        0 ≤ c.z ∧ c.z < (g.NZ : Int) :=
  inBounds_iff

/-- inBounds only looks at the dimensions. -/
theorem inBoundsAt_eq_of_dims {g g' : Grid} (hx : g'.NX = g.NX) (hy : g'.NY = g.NY)
    (hz : g'.NZ = g.NZ) (c : Coord3) : inBoundsAt g' c = inBoundsAt g c := by
  simp [inBoundsAt, inBounds, hx, hy, hz]

@[simp] theorem emptyWorld_NX (nx ny nz : Nat) : (emptyWorld nx ny nz).NX = nx := rfl

@[simp] theorem emptyWorld_NY (nx ny nz : Nat) : (emptyWorld nx ny nz).NY = ny := rfl

@[simp] theorem emptyWorld_NZ (nx ny nz : Nat) : (emptyWorld nx ny nz).NZ = nz := rfl

@[simp] theorem emptyWorld_cells (nx ny nz : Nat) (a b c : Nat) :
    (emptyWorld nx ny nz).cells a b c = Cell.empty := rfl

theorem stepN_zero (c : Coord3) (d : Dir) : c.stepN d 0 = c := by
  simp [Coord3.stepN]

theorem stepN_succ (c : Coord3) (d : Dir) (i : Nat) :
    c.stepN d (i + 1) = (c.stepBy d).stepN d i := by
  simp only [Coord3.stepN, Coord3.stepBy, Coord3.mk.injEq]
  refine ⟨?_, ?_, ?_⟩ <;> push_cast <;> ring

/-- The one-step unfolding of the while-loop of wordLen: the fuel is exact,
so it never truncates. -/
theorem wordLen_unfold (g : Grid) (c : Coord3) (d : Dir) :
    wordLen g c d =
      if inBoundsAt g c && !(g.cellAt c).block then wordLen g (c.stepBy d) d + 1 else 0 := by
  by_cases hc : (inBoundsAt g c && !(g.cellAt c).block) = true
  · have hb := inBoundsAt_iff.1 (Bool.and_elim_left hc)
    have hrb : runBound g c d = runBound g (c.stepBy d) d + 1 := by
      cases d <;>
        simp only [runBound, Coord3.stepBy, Dir.dx, Dir.dy, Dir.dz, add_zero] <;>
        omega
    rw [wordLen, hrb]
    simp [wordLenAux, hc, wordLen]
  · rw [wordLen]
    cases hr : runBound g c d with
    | zero => simp [wordLenAux, hc]
    | succ k => simp [wordLenAux, hc]

/-- The one-step unfolding of the while-loop of readWordFromSolution. -/
theorem readWordFromSolution_unfold (g : Grid) (c : Coord3) (d : Dir) :
    readWordFromSolution g c d =
      if inBoundsAt g c && !(g.cellAt c).block then
        ((g.cellAt c).sol.getD '?') :: readWordFromSolution g (c.stepBy d) d
      else [] := by
  by_cases hc : (inBoundsAt g c && !(g.cellAt c).block) = true
  · have hb := inBoundsAt_iff.1 (Bool.and_elim_left hc)
    have hrb : runBound g c d = runBound g (c.stepBy d) d + 1 := by
      cases d <;>
        simp only [runBound, Coord3.stepBy, Dir.dx, Dir.dy, Dir.dz, add_zero] <;>
        omega
    rw [readWordFromSolution, hrb]
    simp [readWordFromSolutionAux, hc, readWordFromSolution]
  · rw [readWordFromSolution]
    cases hr : runBound g c d with
    | zero => simp [readWordFromSolutionAux, hc]
    | succ k => simp [readWordFromSolutionAux, hc]

/-- The answer binder equals the spec-side concatenation of the solution
letters over the maximal run. -/
theorem readWordFromSolution_eq_specRunConcat (g : Grid) (c : Coord3) (d : Dir) :
    readWordFromSolution g c d = specRunConcat g c d := by
  generalize hn : wordLen g c d = n
  induction n generalizing c with
  | zero =>
    rw [wordLen_unfold] at hn
    rw [readWordFromSolution_unfold]
    by_cases hc : (inBoundsAt g c && !(g.cellAt c).block) = true
    · rw [if_pos hc] at hn
      omega
    · rw [if_neg hc]
      simp [specRunConcat, specLenConcat, wordLen_unfold g c d, hc]
  | succ k ih =>
    rw [wordLen_unfold] at hn
    rw [readWordFromSolution_unfold]
    by_cases hc : (inBoundsAt g c && !(g.cellAt c).block) = true
    · rw [if_pos hc] at hn
      rw [if_pos hc]
      have hk : wordLen g (c.stepBy d) d = k := by omega
      rw [ih _ hk]
      have hwl : wordLen g c d = k + 1 := by rw [wordLen_unfold, if_pos hc, hk]
      simp only [specRunConcat, specLenConcat, hwl, hk, List.range_succ_eq_map,
        List.map_cons, List.map_map]
      have hhead : (solAt g (c.stepN d 0)).getD '?' = (g.cellAt c).sol.getD '?' := by
        have hib : inBounds g c.x c.y c.z = true := Bool.and_elim_left hc
        rw [stepN_zero]
        simp [solAt, inBoundsAt, hib]
      have htail :
          List.map ((fun i => (solAt g (c.stepN d i)).getD '?') ∘ Nat.succ) (List.range k) =
            List.map (fun i => (solAt g ((c.stepBy d).stepN d i)).getD '?') (List.range k) := by
        apply List.map_congr_left
        intro i _
        simp only [Function.comp_apply, Nat.succ_eq_add_one, stepN_succ]
      rw [hhead, htail]
    · rw [if_neg hc] at hn
      omega

@[simp] theorem clearNumbers_NX (g : Grid) : (clearNumbers g).NX = g.NX := rfl

@[simp] theorem clearNumbers_NY (g : Grid) : (clearNumbers g).NY = g.NY := rfl

@[simp] theorem clearNumbers_NZ (g : Grid) : (clearNumbers g).NZ = g.NZ := rfl

theorem clearNumbers_cells (g : Grid) (a b c : Nat) :
    (clearNumbers g).cells a b c =
      if a < g.NX ∧ b < g.NY ∧ c < g.NZ then
        { g.cells a b c with numR := 0, numD := 0, numI := 0 }
      else g.cells a b c := rfl

theorem applyBlocks_nil (g : Grid) : applyBlocks g [] = g := rfl

theorem applyBlocks_cons (g : Grid) (e : Coord3) (bs : List Coord3) :
    applyBlocks g (e :: bs) =
      applyBlocks (if inBoundsAt g e then g.modifyAt e fun ce => { ce with block := true } else g)
        bs := rfl

theorem applyBlocks_dims (g : Grid) (bs : List Coord3) :
    (applyBlocks g bs).NX = g.NX ∧ (applyBlocks g bs).NY = g.NY ∧
      (applyBlocks g bs).NZ = g.NZ := by
  induction bs generalizing g with
  | nil => exact ⟨rfl, rfl, rfl⟩
  | cons e bs ih =>
    rw [applyBlocks_cons]
    refine (ih _).imp (fun h => h.trans ?_) fun h => h.imp (fun h => h.trans ?_)
      fun h => h.trans ?_ <;> (split <;> rfl)

theorem applyBlocks_fields (g : Grid) (bs : List Coord3) (a b c : Nat) :
    ((applyBlocks g bs).cells a b c).ch = ((g.cells a b c)).ch ∧
      ((applyBlocks g bs).cells a b c).sol = (g.cells a b c).sol ∧
      ((applyBlocks g bs).cells a b c).numR = (g.cells a b c).numR ∧
      ((applyBlocks g bs).cells a b c).numD = (g.cells a b c).numD ∧
      ((applyBlocks g bs).cells a b c).numI = (g.cells a b c).numI := by
  induction bs generalizing g with
  | nil => exact ⟨rfl, rfl, rfl, rfl, rfl⟩
  | cons e bs ih =>
    rw [applyBlocks_cons]
    have hstep : ∀ g1, g1 = (if inBoundsAt g e then
          g.modifyAt e fun ce => { ce with block := true } else g) →
        (g1.cells a b c).ch = (g.cells a b c).ch ∧
        (g1.cells a b c).sol = (g.cells a b c).sol ∧
        (g1.cells a b c).numR = (g.cells a b c).numR ∧
        (g1.cells a b c).numD = (g.cells a b c).numD ∧
        (g1.cells a b c).numI = (g.cells a b c).numI := by
      rintro g1 rfl
      split
      · rw [Grid.modifyAt, modifyCell_cells]
        by_cases hcoord : (a = e.x.toNat ∧ b = e.y.toNat ∧ c = e.z.toNat) <;> simp [hcoord]
      · exact ⟨rfl, rfl, rfl, rfl, rfl⟩
    obtain ⟨h1, h2, h3, h4, h5⟩ := hstep _ rfl
    obtain ⟨k1, k2, k3, k4, k5⟩ := ih (if inBoundsAt g e then
      g.modifyAt e fun ce => { ce with block := true } else g)
    exact ⟨k1.trans h1, k2.trans h2, k3.trans h3, k4.trans h4, k5.trans h5⟩

/-- Once blocked, a cell stays blocked through the blocks loop. -/
theorem applyBlocks_block_mono (g : Grid) (bs : List Coord3) (a b c : Nat)
    (h : (g.cells a b c).block = true) :
    ((applyBlocks g bs).cells a b c).block = true := by
  induction bs generalizing g with
  | nil => exact h
  | cons e bs ih =>
    rw [applyBlocks_cons]
    apply ih
    split
    · rw [Grid.modifyAt, modifyCell_cells]
      by_cases hcoord : (a = e.x.toNat ∧ b = e.y.toNat ∧ c = e.z.toNat) <;> simp [hcoord, h]
    · exact h

/-- An in-range entry of the blocks list ends up blocked. -/
theorem applyBlocks_applies (g : Grid) (bs : List Coord3) (e : Coord3) (he : e ∈ bs)
    (hin : inBoundsAt g e = true) :
    ((applyBlocks g bs).cells e.x.toNat e.y.toNat e.z.toNat).block = true := by
  induction bs generalizing g with
  | nil => cases he
  | cons f bs ih =>
    rw [applyBlocks_cons]
    rcases List.mem_cons.1 he with rfl | he'
    · rw [if_pos hin]
      apply applyBlocks_block_mono
      rw [Grid.modifyAt, modifyCell_self]
    · refine ih (if inBoundsAt g f then g.modifyAt f fun ce => { ce with block := true } else g)
        he' ?_
      split
      · exact (inBoundsAt_eq_of_dims rfl rfl rfl e).trans hin
      · exact hin

/-- Out-of-range block entries are skipped without any effect: the blocks
loop computes the same world on the in-range sublist. -/
theorem applyBlocks_filter (g : Grid) (bs : List Coord3) :
    applyBlocks g bs = applyBlocks g (bs.filter fun e => inBoundsAt g e) := by
  induction bs generalizing g with
  | nil => rfl
  | cons e bs ih =>
    by_cases he : inBoundsAt g e = true
    · rw [applyBlocks_cons, if_pos he, List.filter_cons_of_pos he, applyBlocks_cons, if_pos he]
      exact ih _
    · rw [applyBlocks_cons, if_neg he, List.filter_cons_of_neg (by simpa using he)]
      exact ih g

theorem applySolution_nil (g : Grid) : applySolution g [] = g := rfl

theorem applySolution_cons (g : Grid) (s : SolEntry) (ss : List SolEntry) :
    applySolution g (s :: ss) =
      applySolution
        (if !(inBounds g s.x s.y s.z) then g
          else if (g.cellAt ⟨s.x, s.y, s.z⟩).block then g
          else g.modifyAt ⟨s.x, s.y, s.z⟩ fun ce => { ce with sol := s.ch }) ss := rfl

theorem applySolution_dims (g : Grid) (ss : List SolEntry) :
    (applySolution g ss).NX = g.NX ∧ (applySolution g ss).NY = g.NY ∧
      (applySolution g ss).NZ = g.NZ := by
  induction ss generalizing g with
  | nil => exact ⟨rfl, rfl, rfl⟩
  | cons s ss ih =>
    rw [applySolution_cons]
    refine (ih _).imp (fun h => h.trans ?_) fun h => h.imp (fun h => h.trans ?_)
      fun h => h.trans ?_ <;> (split <;> [rfl; (split <;> rfl)])

theorem applySolution_fields (g : Grid) (ss : List SolEntry) (a b c : Nat) :
    ((applySolution g ss).cells a b c).block = ((g.cells a b c)).block ∧
      ((applySolution g ss).cells a b c).ch = (g.cells a b c).ch ∧
      ((applySolution g ss).cells a b c).numR = (g.cells a b c).numR ∧
      ((applySolution g ss).cells a b c).numD = (g.cells a b c).numD ∧
      ((applySolution g ss).cells a b c).numI = (g.cells a b c).numI ∧
      ((g.cells a b c).block = true →
        ((applySolution g ss).cells a b c).sol = (g.cells a b c).sol) := by
  induction ss generalizing g with
  | nil => exact ⟨rfl, rfl, rfl, rfl, rfl, fun _ => rfl⟩
  | cons s ss ih =>
    rw [applySolution_cons]
    have hfields : ∀ g1, g1 = (if !(inBounds g s.x s.y s.z) then g
          else if (g.cellAt ⟨s.x, s.y, s.z⟩).block then g
          else g.modifyAt ⟨s.x, s.y, s.z⟩ fun ce => { ce with sol := s.ch }) →
        (g1.cells a b c).block = (g.cells a b c).block ∧
        (g1.cells a b c).ch = (g.cells a b c).ch ∧
        (g1.cells a b c).numR = (g.cells a b c).numR ∧
        (g1.cells a b c).numD = (g.cells a b c).numD ∧
        (g1.cells a b c).numI = (g.cells a b c).numI ∧
        ((g.cells a b c).block = true → (g1.cells a b c).sol = (g.cells a b c).sol) := by
      rintro g1 rfl
      split
      · exact ⟨rfl, rfl, rfl, rfl, rfl, fun _ => rfl⟩
      · split
        · exact ⟨rfl, rfl, rfl, rfl, rfl, fun _ => rfl⟩
        · rename_i hnb hblk
          rw [Grid.modifyAt, modifyCell_cells]
          by_cases hcoord : (a = (⟨s.x, s.y, s.z⟩ : Coord3).x.toNat ∧
              b = (⟨s.x, s.y, s.z⟩ : Coord3).y.toNat ∧ c = (⟨s.x, s.y, s.z⟩ : Coord3).z.toNat)
          · rw [if_pos hcoord]
            refine ⟨rfl, rfl, rfl, rfl, rfl, fun hb => ?_⟩
            exfalso
            obtain ⟨ha', hb', hc'⟩ := hcoord
            apply hblk
            show ((g.cellAt ⟨s.x, s.y, s.z⟩).block = true)
            rw [Grid.cellAt, Grid.cell, ← ha', ← hb', ← hc']
            exact hb
          · rw [if_neg hcoord]
            exact ⟨rfl, rfl, rfl, rfl, rfl, fun _ => rfl⟩
    obtain ⟨h1, h2, h3, h4, h5, h6⟩ := hfields _ rfl
    have hrest := ih (if !(inBounds g s.x s.y s.z) then g
      else if (g.cellAt ⟨s.x, s.y, s.z⟩).block then g
      else g.modifyAt ⟨s.x, s.y, s.z⟩ fun ce => { ce with sol := s.ch })
    refine ⟨hrest.1.trans h1, (hrest.2.1).trans h2, (hrest.2.2.1).trans h3,
      (hrest.2.2.2.1).trans h4, (hrest.2.2.2.2.1).trans h5, fun hb => ?_⟩
    have hb1 := h1.trans hb
    exact (hrest.2.2.2.2.2 hb1).trans (h6 hb)

theorem placeWordGo_nil (w : WordRec) (g : Grid) (c : Coord3) :
    placeWordGo w g c [] = (g, []) := rfl

theorem placeWordGo_cons (w : WordRec) (g : Grid) (c : Coord3) (ch : Char) (rest : List Char) :
    placeWordGo w g c (ch :: rest) =
      if !(inBoundsAt g c) then (g, [Diag.wordOutOfBounds w c])
      else if (g.cellAt c).block then (g, [Diag.wordHitsBlock w c])
      else
        ((placeWordGo w (g.setSolAt c ch) (c.stepBy w.dir) rest).1,
          (match (g.cellAt c).sol with
            | some had => if had ≠ ch then [Diag.crossingConflict w c had ch] else []
            | none => []) ++ (placeWordGo w (g.setSolAt c ch) (c.stepBy w.dir) rest).2) := rfl

theorem setSolAt_dims (g : Grid) (c : Coord3) (ch : Char) :
    (g.setSolAt c ch).NX = g.NX ∧ (g.setSolAt c ch).NY = g.NY ∧ (g.setSolAt c ch).NZ = g.NZ :=
  ⟨rfl, rfl, rfl⟩

theorem setSolAt_cells (g : Grid) (c : Coord3) (ch : Char) (a b c' : Nat) :
    (g.setSolAt c ch).cells a b c' =
      if a = c.x.toNat ∧ b = c.y.toNat ∧ c' = c.z.toNat then
        { g.cells a b c' with sol := some ch }
      else g.cells a b c' := by
  rw [Grid.setSolAt, Grid.modifyAt, modifyCell_cells]

/-- The Format A word-writing loop changes nothing but solution letters of
open cells: dimensions, block flags, entered letters and numbering are
untouched, and a blocked cell is untouched entirely. -/
theorem placeWordGo_fields (w : WordRec) (l : List Char) (g : Grid) (c : Coord3) (a b c' : Nat) :
    ((placeWordGo w g c l).1.NX = g.NX ∧ (placeWordGo w g c l).1.NY = g.NY ∧
        (placeWordGo w g c l).1.NZ = g.NZ) ∧
      ((placeWordGo w g c l).1.cells a b c').block = (g.cells a b c').block ∧
      ((placeWordGo w g c l).1.cells a b c').ch = (g.cells a b c').ch ∧
      ((placeWordGo w g c l).1.cells a b c').numR = (g.cells a b c').numR ∧
      ((placeWordGo w g c l).1.cells a b c').numD = (g.cells a b c').numD ∧
      ((placeWordGo w g c l).1.cells a b c').numI = (g.cells a b c').numI ∧
      ((g.cells a b c').block = true →
        (placeWordGo w g c l).1.cells a b c' = g.cells a b c') := by
  induction l generalizing g c with
  | nil => exact ⟨⟨rfl, rfl, rfl⟩, rfl, rfl, rfl, rfl, rfl, fun _ => rfl⟩
  | cons ch rest ih =>
    rw [placeWordGo_cons]
    by_cases h1 : inBoundsAt g c = true
    · rw [if_neg (by simp [h1])]
      by_cases h2 : (g.cellAt c).block = true
      · rw [if_pos h2]
        exact ⟨⟨rfl, rfl, rfl⟩, rfl, rfl, rfl, rfl, rfl, fun _ => rfl⟩
      · rw [if_neg h2]
        have hset := setSolAt_cells g c ch a b c'
        have ihr := ih (g.setSolAt c ch) (c.stepBy w.dir)
        by_cases hcoord : (a = c.x.toNat ∧ b = c.y.toNat ∧ c' = c.z.toNat)
        · rw [if_pos hcoord] at hset
          refine ⟨ihr.1, ?_, ?_, ?_, ?_, ?_, fun hb => ?_⟩
          · rw [ihr.2.1, hset]
          · rw [ihr.2.2.1, hset]
          · rw [ihr.2.2.2.1, hset]
          · rw [ihr.2.2.2.2.1, hset]
          · rw [ihr.2.2.2.2.2.1, hset]
          · exfalso
            obtain ⟨ha', hb', hc'⟩ := hcoord
            apply h2
            show ((g.cellAt c).block = true)
            rw [Grid.cellAt, Grid.cell, ← ha', ← hb', ← hc']
            exact hb
        · rw [if_neg hcoord] at hset
          refine ⟨ihr.1, ?_, ?_, ?_, ?_, ?_, fun hb => ?_⟩
          · rw [ihr.2.1, hset]
          · rw [ihr.2.2.1, hset]
          · rw [ihr.2.2.2.1, hset]
          · rw [ihr.2.2.2.2.1, hset]
          · rw [ihr.2.2.2.2.2.1, hset]
          · have hb' : ((g.setSolAt c ch).cells a b c').block = true := by rw [hset]; exact hb
            rw [ihr.2.2.2.2.2.2 hb', hset]
    · rw [if_pos (by simp [h1])]
      exact ⟨⟨rfl, rfl, rfl⟩, rfl, rfl, rfl, rfl, rfl, fun _ => rfl⟩

theorem placeWords_nil (g : Grid) : placeWords g [] = (g, []) := rfl

/-- Accumulator form of the word loop. -/
theorem placeWords_acc (ws : List WordRec) (g : Grid) (ds0 : List Diag) :
    ws.foldl (fun acc w => ((placeWord acc.1 w).1, acc.2 ++ (placeWord acc.1 w).2)) (g, ds0) =
      ((placeWords g ws).1, ds0 ++ (placeWords g ws).2) := by
  induction ws generalizing g ds0 with
  | nil => simp [placeWords]
  | cons w ws ih =>
    rw [placeWords, List.foldl_cons, List.foldl_cons]
    simp only [List.nil_append]
    rw [ih, ih ((placeWord g w).1) ((placeWord g w).2), List.append_assoc]

theorem placeWords_cons (g : Grid) (w : WordRec) (ws : List WordRec) :
    placeWords g (w :: ws) =
      ((placeWords (placeWord g w).1 ws).1,
        (placeWord g w).2 ++ (placeWords (placeWord g w).1 ws).2) := by
  rw [placeWords, List.foldl_cons]
  simp only [List.nil_append]
  exact placeWords_acc ws _ _

/-- The whole Format A word phase also leaves everything but open-cell
solution letters unchanged. -/
theorem placeWords_fields (ws : List WordRec) (g : Grid) (a b c' : Nat) :
    ((placeWords g ws).1.NX = g.NX ∧ (placeWords g ws).1.NY = g.NY ∧
        (placeWords g ws).1.NZ = g.NZ) ∧
      ((placeWords g ws).1.cells a b c').block = (g.cells a b c').block ∧
      ((placeWords g ws).1.cells a b c').ch = (g.cells a b c').ch ∧
      ((placeWords g ws).1.cells a b c').numR = (g.cells a b c').numR ∧
      ((placeWords g ws).1.cells a b c').numD = (g.cells a b c').numD ∧
      ((placeWords g ws).1.cells a b c').numI = (g.cells a b c').numI ∧
      ((g.cells a b c').block = true →
        (placeWords g ws).1.cells a b c' = g.cells a b c') := by
  induction ws generalizing g with
  | nil => exact ⟨⟨rfl, rfl, rfl⟩, rfl, rfl, rfl, rfl, rfl, fun _ => rfl⟩
  | cons w ws ih =>
    rw [placeWords_cons]
    have h1 := placeWordGo_fields w (toUpperAnswer w.answer) g w.start a b c'
    have h2 := ih (placeWord g w).1
    rw [placeWord] at *
    refine ⟨⟨(h2.1.1).trans h1.1.1, (h2.1.2.1).trans h1.1.2.1, (h2.1.2.2).trans h1.1.2.2⟩,
      (h2.2.1).trans h1.2.1, (h2.2.2.1).trans h1.2.2.1, (h2.2.2.2.1).trans h1.2.2.2.1,
      (h2.2.2.2.2.1).trans h1.2.2.2.2.1, (h2.2.2.2.2.2.1).trans h1.2.2.2.2.2.1,
      fun hb => ?_⟩
    have hb1 := (h1.2.1).trans hb
    exact (h2.2.2.2.2.2.2 hb1).trans (h1.2.2.2.2.2.2 hb)

/-- Closed form of one setNum write. -/
theorem setNum_cells (kind : Dir) (cc : Clue) (g : Grid) (a b c' : Nat) :
    (setNum kind cc g).cells a b c' =
      if inBoundsAt g cc.start = true ∧ a = cc.start.x.toNat ∧ b = cc.start.y.toNat ∧
          c' = cc.start.z.toNat then
        (match kind with
          | .R => { g.cells a b c' with numR := cc.n }
          | .D => { g.cells a b c' with numD := cc.n }
          | .I => { g.cells a b c' with numI := cc.n })
      else g.cells a b c' := by
  rw [setNum]
  by_cases h1 : inBoundsAt g cc.start = true
  · rw [if_pos h1, Grid.modifyAt, modifyCell_cells]
    by_cases hcoord : (a = cc.start.x.toNat ∧ b = cc.start.y.toNat ∧ c' = cc.start.z.toNat)
    · rw [if_pos hcoord, if_pos ⟨h1, hcoord⟩]
    · rw [if_neg hcoord, if_neg (by tauto)]
  · rw [if_neg h1, if_neg (by tauto)]

@[simp] theorem setNum_dims (kind : Dir) (cc : Clue) (g : Grid) :
    (setNum kind cc g).NX = g.NX ∧ (setNum kind cc g).NY = g.NY ∧
      (setNum kind cc g).NZ = g.NZ := by
  rw [setNum]
  split <;> exact ⟨rfl, rfl, rfl⟩

/-- An in-bounds start coordinate whose truncations name the cell is the
cell itself. -/
theorem start_eq_of_toNat {g : Grid} {s : Coord3} (hin : inBoundsAt g s = true)
    {a b c' : Nat} (ha : a = s.x.toNat) (hb : b = s.y.toNat) (hc : c' = s.z.toNat) :
    s = ⟨(a : Int), (b : Int), (c' : Int)⟩ := by
  obtain ⟨h1, _, h2, _, h3, _⟩ := inBoundsAt_iff.1 hin
  obtain ⟨sx, sy, sz⟩ := s
  simp only [Coord3.mk.injEq]
  simp only at h1 h2 h3 ha hb hc
  omega

/-- One fold of setNum over a clue list: everything except the targeted
numbering field is preserved, and that field is preserved at any cell that
is not the start of a listed clue. -/
theorem foldSetNum_cells (kind : Dir) (cs : List Clue) (g : Grid) (a b c' : Nat) :
    ((cs.foldl (fun g c => setNum kind c g) g).NX = g.NX ∧
        (cs.foldl (fun g c => setNum kind c g) g).NY = g.NY ∧
        (cs.foldl (fun g c => setNum kind c g) g).NZ = g.NZ) ∧
      ((cs.foldl (fun g c => setNum kind c g) g).cells a b c').block =
        (g.cells a b c').block ∧
      ((cs.foldl (fun g c => setNum kind c g) g).cells a b c').ch = (g.cells a b c').ch ∧
      ((cs.foldl (fun g c => setNum kind c g) g).cells a b c').sol = (g.cells a b c').sol ∧
      (∀ d : Dir, d ≠ kind →
        (((cs.foldl (fun g c => setNum kind c g) g).cells a b c').numOf d =
          ((g.cells a b c').numOf d))) ∧
      ((∀ cc ∈ cs, cc.start ≠ ⟨(a : Int), (b : Int), (c' : Int)⟩) →
        (cs.foldl (fun g c => setNum kind c g) g).cells a b c' = g.cells a b c') := by
  induction cs generalizing g with
  | nil => exact ⟨⟨rfl, rfl, rfl⟩, rfl, rfl, rfl, fun _ _ => rfl, fun _ => rfl⟩
  | cons cc cs ih =>
    rw [List.foldl_cons]
    have hstep := setNum_cells kind cc g a b c'
    have ihr := ih (setNum kind cc g)
    have hone : ((setNum kind cc g).cells a b c').block = (g.cells a b c').block ∧
        ((setNum kind cc g).cells a b c').ch = (g.cells a b c').ch ∧
        ((setNum kind cc g).cells a b c').sol = (g.cells a b c').sol ∧
        (∀ d : Dir, d ≠ kind →
          ((setNum kind cc g).cells a b c').numOf d = (g.cells a b c').numOf d) := by
      rw [hstep]
      split
      · cases kind <;>
          exact ⟨rfl, rfl, rfl, fun d hd => by cases d <;> first | rfl | exact absurd rfl hd⟩
      · exact ⟨rfl, rfl, rfl, fun _ _ => rfl⟩
    refine ⟨⟨ihr.1.1.trans (setNum_dims kind cc g).1, ihr.1.2.1.trans (setNum_dims kind cc g).2.1,
        ihr.1.2.2.trans (setNum_dims kind cc g).2.2⟩,
      ihr.2.1.trans hone.1, ihr.2.2.1.trans hone.2.1, ihr.2.2.2.1.trans hone.2.2.1,
      fun d hd => (ihr.2.2.2.2.1 d hd).trans (hone.2.2.2 d hd), fun hnone => ?_⟩
    have hcc : cc.start ≠ ⟨(a : Int), (b : Int), (c' : Int)⟩ :=
      hnone cc (List.mem_cons_self cc cs)
    have hcell : (setNum kind cc g).cells a b c' = g.cells a b c' := by
      rw [hstep]
      split
      · rename_i hcond
        exact absurd (start_eq_of_toNat hcond.1 hcond.2.1 hcond.2.2.1 hcond.2.2.2) hcc
      · rfl
    exact (ihr.2.2.2.2.2 fun x hx => hnone x (List.mem_cons_of_mem cc hx)).trans hcell

/-- The numbering phase: dimensions, block flags, letters are preserved,
and each numbering field is preserved at any cell that no clue of the
matching direction starts at. -/
theorem setNums_cells (g : Grid) (cl : Clues) (a b c' : Nat) :
    ((setNums g cl).NX = g.NX ∧ (setNums g cl).NY = g.NY ∧ (setNums g cl).NZ = g.NZ) ∧
      ((setNums g cl).cells a b c').block = (g.cells a b c').block ∧
      ((setNums g cl).cells a b c').ch = (g.cells a b c').ch ∧
      ((setNums g cl).cells a b c').sol = (g.cells a b c').sol ∧
      ((∀ cc ∈ cl.R, cc.start ≠ ⟨(a : Int), (b : Int), (c' : Int)⟩) →
        ((setNums g cl).cells a b c').numR = (g.cells a b c').numR) ∧
      ((∀ cc ∈ cl.D, cc.start ≠ ⟨(a : Int), (b : Int), (c' : Int)⟩) →
        ((setNums g cl).cells a b c').numD = (g.cells a b c').numD) ∧
      ((∀ cc ∈ cl.I, cc.start ≠ ⟨(a : Int), (b : Int), (c' : Int)⟩) →
        ((setNums g cl).cells a b c').numI = (g.cells a b c').numI) := by
  rw [setNums]
  have hR := foldSetNum_cells .R cl.R g a b c'
  set g1 := cl.R.foldl (fun g c => setNum .R c g) g with hg1
  have hD := foldSetNum_cells .D cl.D g1 a b c'
  set g2 := cl.D.foldl (fun g c => setNum .D c g) g1 with hg2
  have hI := foldSetNum_cells .I cl.I g2 a b c'
  refine ⟨⟨(hI.1.1.trans hD.1.1).trans hR.1.1, (hI.1.2.1.trans hD.1.2.1).trans hR.1.2.1,
      (hI.1.2.2.trans hD.1.2.2).trans hR.1.2.2⟩,
    (hI.2.1.trans hD.2.1).trans hR.2.1,
    (hI.2.2.1.trans hD.2.2.1).trans hR.2.2.1,
    (hI.2.2.2.1.trans hD.2.2.2.1).trans hR.2.2.2.1, fun hnR => ?_, fun hnD => ?_, fun hnI => ?_⟩
  · have s3 := hI.2.2.2.2.1 .R (by simp)
    have s2 := hD.2.2.2.2.1 .R (by simp)
    have s1 : (g1.cells a b c').numR = (g.cells a b c').numR := by
      rw [hR.2.2.2.2.2 hnR]
    exact (s3.trans s2).trans s1
  · have s3 := hI.2.2.2.2.1 .D (by simp)
    have s2 : (g2.cells a b c').numD = (g1.cells a b c').numD := by
      rw [hD.2.2.2.2.2 hnD]
    have s1 := hR.2.2.2.2.1 .D (by simp)
    exact (s3.trans s2).trans s1
  · have s3 : ((cl.I.foldl (fun g c => setNum .I c g) g2).cells a b c').numI =
        (g2.cells a b c').numI := by
      rw [hI.2.2.2.2.2 hnI]
    have s2 := hD.2.2.2.2.1 .I (by simp)
    have s1 := hR.2.2.2.2.1 .I (by simp)
    exact (s3.trans s2).trans s1

theorem attach_ofDir (g : Grid) (cl : Clues) (d : Dir) :
    (attachAnswersToClues g cl).ofDir d =
      (cl.ofDir d).map fun c =>
        { c with answer := some (readWordFromSolution g c.start d) } := by
  cases d <;> rfl

theorem mem_attach_ofDir {g : Grid} {cl : Clues} {d : Dir} {c : Clue} :
    c ∈ (attachAnswersToClues g cl).ofDir d ↔
      ∃ c0 ∈ cl.ofDir d, c = { c0 with answer := some (readWordFromSolution g c0.start d) } := by
  rw [attach_ofDir, List.mem_map]
  constructor
  · rintro ⟨c0, h0, rfl⟩
    exact ⟨c0, h0, rfl⟩
  · rintro ⟨c0, h0, rfl⟩
    exact ⟨c0, h0, rfl⟩

theorem loadBase_dims (r : PuzzleRecord) :
    (loadBase r).NX = r.nx ∧ (loadBase r).NY = r.ny ∧ (loadBase r).NZ = r.nz := by
  rw [loadBase]
  obtain ⟨h1, h2, h3⟩ := applyBlocks_dims (emptyWorld r.nx r.ny r.nz) r.blocks
  exact ⟨h1, h2, h3⟩

/-- Before the letter phases every in-range cell is letterless and
unnumbered; only the block flag carries information. -/
theorem loadBase_cells (r : PuzzleRecord) (a b c : Nat) (ha : a < r.nx) (hb : b < r.ny)
    (hc : c < r.nz) :
    ((loadBase r).cells a b c).ch = none ∧ ((loadBase r).cells a b c).sol = none ∧
      ((loadBase r).cells a b c).numR = 0 ∧ ((loadBase r).cells a b c).numD = 0 ∧
      ((loadBase r).cells a b c).numI = 0 := by
  rw [loadBase]
  obtain ⟨h1, h2, h3⟩ := applyBlocks_dims (emptyWorld r.nx r.ny r.nz) r.blocks
  rw [clearNumbers_cells]
  rw [if_pos (by rw [h1, h2, h3]; exact ⟨ha, hb, hc⟩)]
  obtain ⟨k1, k2, _, _, _⟩ := applyBlocks_fields (emptyWorld r.nx r.ny r.nz) r.blocks a b c
  exact ⟨k1, k2, rfl, rfl, rfl⟩

/-- The Format A route of loadPuzzleFromJSON, unfolded. -/
theorem loadPuzzleFromJSON_formatA (r : PuzzleRecord) (h : r.words.isEmpty = false) :
    loadPuzzleFromJSON r =
      ⟨setNums (placeWords (loadBase r) r.words).1 (buildCluesA r.words).1,
        attachAnswersToClues
          (setNums (placeWords (loadBase r) r.words).1 (buildCluesA r.words).1)
          (buildCluesA r.words).1,
        (placeWords (loadBase r) r.words).2⟩ := by
  rw [loadPuzzleFromJSON]
  simp only [h, Bool.false_eq_true, if_false]
  rfl

/-- The Format B route of loadPuzzleFromJSON, unfolded. -/
theorem loadPuzzleFromJSON_formatB (r : PuzzleRecord) (h : r.words.isEmpty = true) :
    loadPuzzleFromJSON r =
      ⟨setNums (applySolution (loadBase r) r.solution)
          (ensureHintFields
            (if hasCluesB r then
              match r.clues with
              | some t => ⟨t.1, t.2.1, t.2.2⟩
              | none => ⟨[], [], []⟩
            else computeCluesFromWorld (applySolution (loadBase r) r.solution))),
        attachAnswersToClues
          (setNums (applySolution (loadBase r) r.solution)
            (ensureHintFields
              (if hasCluesB r then
                match r.clues with
                | some t => ⟨t.1, t.2.1, t.2.2⟩
                | none => ⟨[], [], []⟩
              else computeCluesFromWorld (applySolution (loadBase r) r.solution))))
          (ensureHintFields
            (if hasCluesB r then
              match r.clues with
              | some t => ⟨t.1, t.2.1, t.2.2⟩
              | none => ⟨[], [], []⟩
            else computeCluesFromWorld (applySolution (loadBase r) r.solution))),
        []⟩ := by
  rw [loadPuzzleFromJSON]
  simp only [h, if_true]
  rfl

/-- Answer attachment keeps every start coordinate, so a coordinate avoided
by all final clues is avoided by all pre-attachment clues. -/
theorem no_start_transfer {g3 : Grid} {cl : Clues} {p : Coord3}
    (hno : ∀ cc ∈ (attachAnswersToClues g3 cl).allList, cc.start ≠ p) :
    (∀ cc ∈ cl.R, cc.start ≠ p) ∧ (∀ cc ∈ cl.D, cc.start ≠ p) ∧
      (∀ cc ∈ cl.I, cc.start ≠ p) := by
  refine ⟨fun cc hcc => ?_, fun cc hcc => ?_, fun cc hcc => ?_⟩
  · have h1 := hno { cc with answer := some (readWordFromSolution g3 cc.start .R) }
      (List.mem_append_left _ (List.mem_append_left _ (List.mem_map_of_mem _ hcc)))
    simpa using h1
  · have h1 := hno { cc with answer := some (readWordFromSolution g3 cc.start .D) }
      (List.mem_append_left _ (List.mem_append_right _ (List.mem_map_of_mem _ hcc)))
    simpa using h1
  · have h1 := hno { cc with answer := some (readWordFromSolution g3 cc.start .I) }
      (List.mem_append_right _ (List.mem_map_of_mem _ hcc))
    simpa using h1

/-- C2, amended: after any completed load, a blocked cell always has empty
solution and entered letters; and its three numbering fields are all zero
provided no loaded clue starts at that cell (the record itself can force a
numbering write onto a blocked cell by declaring a word or clue that starts
there, see the counterexample). -/
theorem blockedCell_invariant_amended (r : PuzzleRecord) (a b c : Nat)
    (ha : a < r.nx) (hb : b < r.ny) (hc : c < r.nz)
    (hblk : ((loadPuzzleFromJSON r).grid.cells a b c).block = true) :
    ((loadPuzzleFromJSON r).grid.cells a b c).sol = none ∧
      ((loadPuzzleFromJSON r).grid.cells a b c).ch = none ∧
      ((∀ cc ∈ (loadPuzzleFromJSON r).clues.allList,
          cc.start ≠ ⟨(a : Int), (b : Int), (c : Int)⟩) →
        ((loadPuzzleFromJSON r).grid.cells a b c).numR = 0 ∧
          ((loadPuzzleFromJSON r).grid.cells a b c).numD = 0 ∧
          ((loadPuzzleFromJSON r).grid.cells a b c).numI = 0) := by
  have hbase := loadBase_cells r a b c ha hb hc
  cases hw : r.words.isEmpty with
  | false =>
    rw [loadPuzzleFromJSON_formatA r hw] at hblk ⊢
    simp only at hblk ⊢
    have hsn := setNums_cells (placeWords (loadBase r) r.words).1 (buildCluesA r.words).1 a b c
    have hpw := placeWords_fields r.words (loadBase r) a b c
    have hblk2 : ((placeWords (loadBase r) r.words).1.cells a b c).block = true := by
      rw [← hsn.2.1]; exact hblk
    have hblkB : ((loadBase r).cells a b c).block = true := by
      rw [← hpw.2.1]; exact hblk2
    have hcellB : (placeWords (loadBase r) r.words).1.cells a b c = (loadBase r).cells a b c :=
      hpw.2.2.2.2.2.2 hblkB
    refine ⟨?_, ?_, fun hno => ?_⟩
    · rw [hsn.2.2.2.1, hcellB, hbase.2.1]
    · rw [hsn.2.2.1, hcellB, hbase.1]
    · obtain ⟨hnR, hnD, hnI⟩ := no_start_transfer hno
      refine ⟨?_, ?_, ?_⟩
      · rw [hsn.2.2.2.2.1 hnR, hpw.2.2.2.1, hbase.2.2.1]
      · rw [hsn.2.2.2.2.2.1 hnD, hpw.2.2.2.2.1, hbase.2.2.2.1]
      · rw [hsn.2.2.2.2.2.2 hnI, hpw.2.2.2.2.2.1, hbase.2.2.2.2]
  | true =>
    rw [loadPuzzleFromJSON_formatB r hw] at hblk ⊢
    simp only at hblk ⊢
    have hsn := setNums_cells (applySolution (loadBase r) r.solution)
      (ensureHintFields
        (if hasCluesB r then
          match r.clues with
          | some t => ⟨t.1, t.2.1, t.2.2⟩
          | none => ⟨[], [], []⟩
        else computeCluesFromWorld (applySolution (loadBase r) r.solution))) a b c
    have hap := applySolution_fields (loadBase r) r.solution a b c
    have hblk2 : ((applySolution (loadBase r) r.solution).cells a b c).block = true := by
      rw [← hsn.2.1]; exact hblk
    have hblkB : ((loadBase r).cells a b c).block = true := by
      rw [← hap.1]; exact hblk2
    refine ⟨?_, ?_, fun hno => ?_⟩
    · rw [hsn.2.2.2.1, hap.2.2.2.2.2 hblkB, hbase.2.1]
    · rw [hsn.2.2.1, hap.2.1, hbase.1]
    · obtain ⟨hnR, hnD, hnI⟩ := no_start_transfer hno
      refine ⟨?_, ?_, ?_⟩
      · rw [hsn.2.2.2.2.1 hnR, hap.2.2.1, hbase.2.2.1]
      · rw [hsn.2.2.2.2.2.1 hnD, hap.2.2.2.1, hbase.2.2.2.1]
      · rw [hsn.2.2.2.2.2.2 hnI, hap.2.2.2.2.1, hbase.2.2.2.2]

/-- C2, counterexample to the claim as stated: a Format A record whose word
starts on a declared block.  The word placement is aborted with a
diagnostic, but the clue is still built and its numbering write lands on the
blocked cell: the blocked start cell ends with numR = 1. -/
theorem blockedCell_invariant_counterexample :
    (((loadPuzzleFromJSON
        ⟨2, 1, 1, [⟨0, 0, 0⟩], [⟨.R, ⟨0, 0, 0⟩, ['A', 'B'], none⟩], [], none⟩).grid.cells
          0 0 0).block = true) ∧
      (((loadPuzzleFromJSON
        ⟨2, 1, 1, [⟨0, 0, 0⟩], [⟨.R, ⟨0, 0, 0⟩, ['A', 'B'], none⟩], [], none⟩).grid.cells
          0 0 0).numR ≠ 0) := by
  decide

theorem blockedCell_invariant_witness :
    ((1 < 2 ∧ 0 < 1 ∧ 0 < 1) ∧
      ((loadPuzzleFromJSON ⟨2, 1, 1, [⟨1, 0, 0⟩], [], [], none⟩).grid.cells 1 0 0).block =
        true) ∧
      (((loadPuzzleFromJSON ⟨2, 1, 1, [⟨1, 0, 0⟩], [], [], none⟩).grid.cells 1 0 0).sol =
          none ∧
        ((loadPuzzleFromJSON ⟨2, 1, 1, [⟨1, 0, 0⟩], [], [], none⟩).grid.cells 1 0 0).ch =
          none ∧
        ((∀ cc ∈ (loadPuzzleFromJSON ⟨2, 1, 1, [⟨1, 0, 0⟩], [], [], none⟩).clues.allList,
            cc.start ≠ ⟨(1 : Int), (0 : Int), (0 : Int)⟩) →
          ((loadPuzzleFromJSON ⟨2, 1, 1, [⟨1, 0, 0⟩], [], [], none⟩).grid.cells 1 0 0).numR =
              0 ∧
            ((loadPuzzleFromJSON ⟨2, 1, 1, [⟨1, 0, 0⟩], [], [],
              none⟩).grid.cells 1 0 0).numD = 0 ∧
            ((loadPuzzleFromJSON ⟨2, 1, 1, [⟨1, 0, 0⟩], [], [],
              none⟩).grid.cells 1 0 0).numI = 0)) :=
  ⟨⟨⟨by decide, by decide, by decide⟩, by decide⟩,
    blockedCell_invariant_amended ⟨2, 1, 1, [⟨1, 0, 0⟩], [], [], none⟩ 1 0 0
      (by decide) (by decide) (by decide) (by decide)⟩

theorem mem_allList {cl : Clues} {c : Clue} :
    c ∈ cl.allList ↔ c ∈ cl.R ∨ c ∈ cl.D ∨ c ∈ cl.I := by
  simp [Clues.allList, List.mem_append, or_assoc]

theorem coordOfNat_inj {p q : Nat × Nat × Nat}
    (h : (⟨(p.1 : Int), (p.2.1 : Int), (p.2.2 : Int)⟩ : Coord3) =
      ⟨(q.1 : Int), (q.2.1 : Int), (q.2.2 : Int)⟩) : p = q := by
  obtain ⟨a, b, c⟩ := p
  obtain ⟨a', b', c'⟩ := q
  simp only [Coord3.mk.injEq] at h
  simp only [Prod.mk.injEq]
  omega

/-- One extraction step, projected to one direction: the direction list
grows by exactly one clue (numbered with the fresh shared number) when the
cell is open and starts a word in that direction. -/
theorem cluesStep_ofDir (g : Grid) (acc : Clues × Nat) (p : Nat × Nat × Nat) (d : Dir) :
    ((cluesStep g acc p).1).ofDir d =
      (acc.1.ofDir d) ++
        (if (!(g.cell p.1 p.2.1 p.2.2).block && startsAt g d p.1 p.2.1 p.2.2) = true then
          [⟨acc.2 + 1, ⟨(p.1 : Int), (p.2.1 : Int), (p.2.2 : Int)⟩,
            wordLen g ⟨(p.1 : Int), (p.2.1 : Int), (p.2.2 : Int)⟩ d,
            some (defaultHint d), none⟩]
        else []) := by
  obtain ⟨x, y, z⟩ := p
  cases d <;>
    · rw [cluesStep]
      by_cases hb : (g.cell x y z).block = true
      · simp [hb, startsAt, Clues.ofDir]
      · by_cases h1 : startsR g x y z = true <;> by_cases h2 : startsD g x y z = true <;>
          by_cases h3 : startsI g x y z = true <;>
          simp [hb, h1, h2, h3, startsAt, Clues.ofDir, defaultHint]

/-- One extraction step: the shared counter advances exactly when the open
cell starts a word in at least one direction. -/
theorem cluesStep_counter (g : Grid) (acc : Clues × Nat) (p : Nat × Nat × Nat) :
    (cluesStep g acc p).2 =
      if (!(g.cell p.1 p.2.1 p.2.2).block &&
          (startsR g p.1 p.2.1 p.2.2 || startsD g p.1 p.2.1 p.2.2 ||
            startsI g p.1 p.2.1 p.2.2)) = true then
        acc.2 + 1
      else acc.2 := by
  obtain ⟨x, y, z⟩ := p
  rw [cluesStep]
  by_cases hb : (g.cell x y z).block = true
  · simp [hb]
  · by_cases h1 : startsR g x y z = true <;> by_cases h2 : startsD g x y z = true <;>
      by_cases h3 : startsI g x y z = true <;> simp [hb, h1, h2, h3]

/-- The start coordinates collected by the extraction scan are exactly the
scanned cells passing the open + word-start test, in scan order. -/
theorem cluesFold_starts (g : Grid) (d : Dir) (l : List (Nat × Nat × Nat)) (acc : Clues × Nat) :
    (((l.foldl (cluesStep g) acc).1).ofDir d).map (·.start) =
      ((acc.1.ofDir d).map (·.start)) ++
        ((l.filter fun p =>
            !(g.cell p.1 p.2.1 p.2.2).block && startsAt g d p.1 p.2.1 p.2.2).map
          fun p => (⟨(p.1 : Int), (p.2.1 : Int), (p.2.2 : Int)⟩ : Coord3)) := by
  induction l generalizing acc with
  | nil => simp
  | cons p l ih =>
    rw [List.foldl_cons, ih, List.filter_cons]
    by_cases hcond : (!(g.cell p.1 p.2.1 p.2.2).block && startsAt g d p.1 p.2.1 p.2.2) = true
    · rw [if_pos hcond, cluesStep_ofDir, if_pos hcond, List.map_append, List.map_cons]
      simp [List.append_assoc]
    · rw [if_neg hcond, cluesStep_ofDir, if_neg hcond, List.append_nil]

/-- The numbering invariant of the extraction scan: all assigned numbers
are positive and bounded by the counter, and two collected clues share a
number exactly when they share a start cell. -/
theorem cluesFold_number_inv (g : Grid) (l : List (Nat × Nat × Nat)) (acc : Clues × Nat)
    (hn : ∀ cc ∈ acc.1.allList, 1 ≤ cc.n ∧ cc.n ≤ acc.2)
    (hiff : ∀ c1 ∈ acc.1.allList, ∀ c2 ∈ acc.1.allList, (c1.n = c2.n ↔ c1.start = c2.start))
    (hfresh : ∀ p ∈ l, ∀ cc ∈ acc.1.allList,
      cc.start ≠ ⟨(p.1 : Int), (p.2.1 : Int), (p.2.2 : Int)⟩)
    (hnodup : l.Nodup) :
    (∀ cc ∈ (l.foldl (cluesStep g) acc).1.allList,
        1 ≤ cc.n ∧ cc.n ≤ (l.foldl (cluesStep g) acc).2) ∧
      (∀ c1 ∈ (l.foldl (cluesStep g) acc).1.allList,
        ∀ c2 ∈ (l.foldl (cluesStep g) acc).1.allList,
          (c1.n = c2.n ↔ c1.start = c2.start)) := by
  induction l generalizing acc with
  | nil => exact ⟨hn, hiff⟩
  | cons p l ih =>
    rw [List.foldl_cons]
    obtain ⟨hnp, hnodup'⟩ := List.nodup_cons.1 hnodup
    have hmemDir : ∀ d : Dir, ∀ cc ∈ (cluesStep g acc p).1.ofDir d,
        cc ∈ acc.1.ofDir d ∨
          (cc.start = ⟨(p.1 : Int), (p.2.1 : Int), (p.2.2 : Int)⟩ ∧ cc.n = acc.2 + 1 ∧
            (!(g.cell p.1 p.2.1 p.2.2).block && startsAt g d p.1 p.2.1 p.2.2) = true) := by
      intro d cc h
      rw [cluesStep_ofDir] at h
      rcases List.mem_append.1 h with h | h
      · exact Or.inl h
      · by_cases hcond :
          (!(g.cell p.1 p.2.1 p.2.2).block && startsAt g d p.1 p.2.1 p.2.2) = true
        · rw [if_pos hcond] at h
          rcases List.mem_singleton.1 h with rfl
          exact Or.inr ⟨rfl, rfl, hcond⟩
        · rw [if_neg hcond] at h
          cases h
    have hmem : ∀ cc ∈ (cluesStep g acc p).1.allList,
        cc ∈ acc.1.allList ∨
          (cc.start = ⟨(p.1 : Int), (p.2.1 : Int), (p.2.2 : Int)⟩ ∧ cc.n = acc.2 + 1 ∧
            (cluesStep g acc p).2 = acc.2 + 1) := by
      intro cc hcc
      have hdisj : ∀ d : Dir,
          (!(g.cell p.1 p.2.1 p.2.2).block && startsAt g d p.1 p.2.1 p.2.2) = true →
          (cluesStep g acc p).2 = acc.2 + 1 := by
        intro d hcond
        rw [cluesStep_counter, if_pos ?_]
        rw [Bool.and_eq_true] at hcond ⊢
        refine ⟨hcond.1, ?_⟩
        cases d <;> simp only [startsAt] at hcond <;> simp [hcond.2]
      rcases mem_allList.1 hcc with h | h | h
      · rcases hmemDir .R cc h with h' | ⟨h1, h2, h3⟩
        · exact Or.inl (mem_allList.2 (Or.inl h'))
        · exact Or.inr ⟨h1, h2, hdisj .R h3⟩
      · rcases hmemDir .D cc h with h' | ⟨h1, h2, h3⟩
        · exact Or.inl (mem_allList.2 (Or.inr (Or.inl h')))
        · exact Or.inr ⟨h1, h2, hdisj .D h3⟩
      · rcases hmemDir .I cc h with h' | ⟨h1, h2, h3⟩
        · exact Or.inl (mem_allList.2 (Or.inr (Or.inr h')))
        · exact Or.inr ⟨h1, h2, hdisj .I h3⟩
    have hctr : acc.2 ≤ (cluesStep g acc p).2 ∧ (cluesStep g acc p).2 ≤ acc.2 + 1 := by
      rw [cluesStep_counter]
      split <;> omega
    have hn' : ∀ cc ∈ (cluesStep g acc p).1.allList,
        1 ≤ cc.n ∧ cc.n ≤ (cluesStep g acc p).2 := by
      intro cc hcc
      rcases hmem cc hcc with h | ⟨_, h2, h3⟩
      · obtain ⟨k1, k2⟩ := hn cc h
        exact ⟨k1, k2.trans hctr.1⟩
      · rw [h2, h3]
        omega
    have hiff' : ∀ c1 ∈ (cluesStep g acc p).1.allList, ∀ c2 ∈ (cluesStep g acc p).1.allList,
        (c1.n = c2.n ↔ c1.start = c2.start) := by
      intro c1 h1 c2 h2
      rcases hmem c1 h1 with ho1 | ⟨hs1, hn1, _⟩
      · rcases hmem c2 h2 with ho2 | ⟨hs2, hn2, _⟩
        · exact hiff c1 ho1 c2 ho2
        · have hna : c1.n ≠ c2.n := by
            have := (hn c1 ho1).2
            omega
          have hsa : c1.start ≠ c2.start := by
            rw [hs2]
            exact hfresh p (List.mem_cons_self p l) c1 ho1
          exact ⟨fun h => absurd h hna, fun h => absurd h hsa⟩
      · rcases hmem c2 h2 with ho2 | ⟨hs2, hn2, _⟩
        · have hna : c1.n ≠ c2.n := by
            have := (hn c2 ho2).2
            omega
          have hsa : c1.start ≠ c2.start := by
            rw [hs1]
            exact fun h => hfresh p (List.mem_cons_self p l) c2 ho2 h.symm
          exact ⟨fun h => absurd h hna, fun h => absurd h hsa⟩
        · rw [hn1, hn2, hs1, hs2]
          simp
    have hfresh' : ∀ q ∈ l, ∀ cc ∈ (cluesStep g acc p).1.allList,
        cc.start ≠ ⟨(q.1 : Int), (q.2.1 : Int), (q.2.2 : Int)⟩ := by
      intro q hq cc hcc
      rcases hmem cc hcc with h | ⟨hs, _, _⟩
      · exact hfresh q (List.mem_cons_of_mem p hq) cc h
      · rw [hs]
        intro hpq
        exact hnp (by rw [coordOfNat_inj hpq]; exact hq)
    exact ih _ hn' hiff' hfresh' hnodup'

theorem startsAt_eq (g : Grid) (d : Dir) (x y z : Nat) :
    startsAt g d x y z = (prevBlockedOrOffGrid g d x y z && nextOpenInDir g d x y z) := by
  cases d <;> rfl

/-- A successful lookup names an entry of the map. -/
theorem lookupStart_mem {m : List (Coord3 × Nat)} {k : Coord3} {v : Nat}
    (h : lookupStart m k = some v) : (k, v) ∈ m := by
  induction m with
  | nil => simp [lookupStart] at h
  | cons e m ih =>
    obtain ⟨e1, e2⟩ := e
    by_cases he : e1 = k
    · subst he
      have h2 : e2 = v := by
        rw [lookupStart] at h
        simp [List.find?] at h
        exact h
      rw [← h2]
      exact List.mem_cons_self (e1, e2) m
    · have heq : lookupStart ((e1, e2) :: m) k = lookupStart m k := by
        rw [lookupStart, lookupStart]
        simp [List.find?, he]
      rw [heq] at h
      exact List.mem_cons_of_mem (e1, e2) (ih h)

/-- Lookup is stable under extending the map on the right. -/
theorem lookupStart_append_of_some {m : List (Coord3 × Nat)} {k : Coord3} {v : Nat}
    (mm : List (Coord3 × Nat)) (h : lookupStart m k = some v) :
    lookupStart (m ++ mm) k = some v := by
  rw [lookupStart] at h ⊢
  rw [List.find?_append]
  obtain ⟨e, he, hev⟩ := Option.map_eq_some'.1 h
  rw [he]
  simpa using hev

theorem lookupStart_append_of_none {m : List (Coord3 × Nat)} {k : Coord3}
    (mm : List (Coord3 × Nat)) (h : lookupStart m k = none) :
    lookupStart (m ++ mm) k = lookupStart mm k := by
  rw [lookupStart] at h ⊢
  rw [List.find?_append]
  rw [Option.map_eq_none'] at h
  rw [h]
  rfl

/-- The new-word clue built by one step of the Format A clue loop. -/
theorem buildCluesAStep_parts (acc : Clues × List (Coord3 × Nat) × Nat) (w : WordRec) :
    ((buildCluesAStep acc w).2.1 =
        (match lookupStart acc.2.1 w.start with
          | some _ => acc.2.1
          | none => acc.2.1 ++ [(w.start, acc.2.2)]) ∧
      (buildCluesAStep acc w).2.2 =
        (match lookupStart acc.2.1 w.start with
          | some _ => acc.2.2
          | none => acc.2.2 + 1)) ∧
      ∀ cc ∈ (buildCluesAStep acc w).1.allList,
        cc ∈ acc.1.allList ∨
          (cc.start = w.start ∧
            cc.n = (match lookupStart acc.2.1 w.start with
              | some n => n
              | none => acc.2.2)) := by
  cases hl : lookupStart acc.2.1 w.start <;>
    cases hd : w.dir <;>
      · simp only [buildCluesAStep, hl, hd]
        refine ⟨⟨by trivial, by trivial⟩, fun cc hcc => ?_⟩
        rcases mem_allList.1 hcc with h | h | h <;>
          first
            | (rcases List.mem_append.1 h with h | h
               · exact Or.inl (mem_allList.2 (by tauto))
               · rcases List.mem_singleton.1 h with rfl
                 exact Or.inr ⟨rfl, rfl⟩)
            | exact Or.inl (mem_allList.2 (by tauto))

/-- The invariant of the Format A clue-building loop: the startToNumber map
binds distinct starts to distinct positive numbers below the counter, and
every built clue carries the number its start is bound to. -/
theorem buildCluesA_fold_inv (ws : List WordRec) (acc : Clues × List (Coord3 × Nat) × Nat)
    (h0 : 1 ≤ acc.2.2)
    (h1 : ∀ e ∈ acc.2.1, 1 ≤ e.2 ∧ e.2 < acc.2.2)
    (h2 : ∀ e1 ∈ acc.2.1, ∀ e2 ∈ acc.2.1, (e1.1 = e2.1 ↔ e1.2 = e2.2))
    (h3 : ∀ cc ∈ acc.1.allList, lookupStart acc.2.1 cc.start = some cc.n) :
    (1 ≤ (ws.foldl buildCluesAStep acc).2.2) ∧
      (∀ e ∈ (ws.foldl buildCluesAStep acc).2.1,
        1 ≤ e.2 ∧ e.2 < (ws.foldl buildCluesAStep acc).2.2) ∧
      (∀ e1 ∈ (ws.foldl buildCluesAStep acc).2.1, ∀ e2 ∈ (ws.foldl buildCluesAStep acc).2.1,
        (e1.1 = e2.1 ↔ e1.2 = e2.2)) ∧
      (∀ cc ∈ (ws.foldl buildCluesAStep acc).1.allList,
        lookupStart (ws.foldl buildCluesAStep acc).2.1 cc.start = some cc.n) := by
  induction ws generalizing acc with
  | nil => exact ⟨h0, h1, h2, h3⟩
  | cons w ws ih =>
    rw [List.foldl_cons]
    obtain ⟨⟨hm, hc⟩, hmem⟩ := buildCluesAStep_parts acc w
    cases hl : lookupStart acc.2.1 w.start with
    | some n =>
      simp only [hl] at hm hc hmem
      refine ih (buildCluesAStep acc w) (by rw [hc]; exact h0) (by rw [hm, hc]; exact h1)
        (by rw [hm]; exact h2) ?_
      intro cc hcc
      rcases hmem cc hcc with h | ⟨hs, hn⟩
      · rw [hm]
        exact h3 cc h
      · rw [hm, hs, hn]
        exact hl
    | none =>
      simp only [hl] at hm hc hmem
      refine ih (buildCluesAStep acc w) (by rw [hc]; exact Nat.le_add_left 1 acc.2.2) ?_ ?_ ?_
      · rw [hm, hc]
        intro e he
        rcases List.mem_append.1 he with h | h
        · obtain ⟨k1, k2⟩ := h1 e h
          exact ⟨k1, Nat.lt_succ_of_lt k2⟩
        · rcases List.mem_singleton.1 h with rfl
          exact ⟨h0, Nat.lt_succ_self _⟩
      · rw [hm]
        intro e1 he1 e2 he2
        rcases List.mem_append.1 he1 with k1 | k1 <;> rcases List.mem_append.1 he2 with k2 | k2
        · exact h2 e1 k1 e2 k2
        · rcases List.mem_singleton.1 k2 with rfl
          have hne1 : e1.1 ≠ w.start := by
            intro hk
            have : lookupStart acc.2.1 w.start = some e1.2 := by
              rw [lookupStart]
              have hfind : acc.2.1.find? (fun e => decide (e.1 = w.start)) ≠ none := by
                intro hnone
                rw [List.find?_eq_none] at hnone
                exact hnone e1 k1 (by rw [decide_eq_true_eq]; exact hk)
              obtain ⟨e', he'⟩ := Option.ne_none_iff_exists'.1 hfind
              rw [lookupStart] at hl
              rw [he'] at hl
              cases hl
            rw [hl] at this
            cases this
          have hne2 : e1.2 ≠ acc.2.2 := by
            have := (h1 e1 k1).2
            omega
          simp only
          exact ⟨fun h => absurd h hne1, fun h => absurd h hne2⟩
        · rcases List.mem_singleton.1 k1 with rfl
          have hne1 : e2.1 ≠ w.start := by
            intro hk
            have hfind : acc.2.1.find? (fun e => decide (e.1 = w.start)) ≠ none := by
              intro hnone
              rw [List.find?_eq_none] at hnone
              exact hnone e2 k2 (by rw [decide_eq_true_eq]; exact hk)
            obtain ⟨e', he'⟩ := Option.ne_none_iff_exists'.1 hfind
            rw [lookupStart] at hl
            rw [he'] at hl
            cases hl
          have hne2 : e2.2 ≠ acc.2.2 := by
            have := (h1 e2 k2).2
            omega
          simp only
          exact ⟨fun h => absurd h.symm hne1, fun h => absurd h.symm hne2⟩
        · rcases List.mem_singleton.1 k1 with rfl
          rcases List.mem_singleton.1 k2 with rfl
          simp
      · rw [hm]
        intro cc hcc
        rcases hmem cc hcc with h | ⟨hs, hn⟩
        · exact lookupStart_append_of_some _ (h3 cc h)
        · rw [hs, hn, lookupStart_append_of_none _ hl, lookupStart]
          simp

/-- Two clues of the final Format A clue set share a number exactly when
they share a start. -/
theorem buildCluesA_start_keyed (ws : List WordRec) {c1 c2 : Clue}
    (hc1 : c1 ∈ (buildCluesA ws).1.allList) (hc2 : c2 ∈ (buildCluesA ws).1.allList) :
    (c1.n = c2.n ↔ c1.start = c2.start) := by
  have hinv := buildCluesA_fold_inv ws (⟨[], [], []⟩, [], 1) (le_refl 1)
    (by intro e he; cases he) (by intro e1 he1; cases he1) (by intro cc hcc; cases hcc)
  rw [buildCluesA] at hc1 hc2
  have k1 := hinv.2.2.2 c1 hc1
  have k2 := hinv.2.2.2 c2 hc2
  have m1 := lookupStart_mem k1
  have m2 := lookupStart_mem k2
  have := hinv.2.2.1 (c1.start, c1.n) m1 (c2.start, c2.n) m2
  simpa using this.symm

theorem ofDir_subset_allList {cl : Clues} {d : Dir} {c : Clue} (h : c ∈ cl.ofDir d) :
    c ∈ cl.allList := by
  cases d
  · exact mem_allList.2 (Or.inl h)
  · exact mem_allList.2 (Or.inr (Or.inl h))
  · exact mem_allList.2 (Or.inr (Or.inr h))

/-- A start coordinate is collected by the extractor in a direction exactly
when the cell is scanned, open, and passes the word-start test. -/
theorem computeClues_start_iff (g : Grid) (d : Dir) (x y z : Nat) :
    (∃ cc ∈ (computeCluesFromWorld g).ofDir d,
        cc.start = (⟨(x : Int), (y : Int), (z : Int)⟩ : Coord3)) ↔
      (x < g.NX ∧ y < g.NY ∧ z < g.NZ ∧
        (!(g.cell x y z).block && startsAt g d x y z) = true) := by
  have hnil : (((⟨[], [], []⟩ : Clues)).ofDir d).map (·.start) = [] := by cases d <;> rfl
  have hfold : ((computeCluesFromWorld g).ofDir d).map (·.start) =
      ((scanCoords g.NX g.NY g.NZ).filter fun p =>
          !(g.cell p.1 p.2.1 p.2.2).block && startsAt g d p.1 p.2.1 p.2.2).map
        (fun p => (⟨(p.1 : Int), (p.2.1 : Int), (p.2.2 : Int)⟩ : Coord3)) := by
    rw [computeCluesFromWorld, cluesFold_starts g d, hnil, List.nil_append]
  constructor
  · rintro ⟨cc, hcc, hstart⟩
    have hmm : (⟨(x : Int), (y : Int), (z : Int)⟩ : Coord3) ∈
        ((computeCluesFromWorld g).ofDir d).map (·.start) :=
      List.mem_map.2 ⟨cc, hcc, hstart⟩
    rw [hfold, List.mem_map] at hmm
    obtain ⟨p, hp, hcast⟩ := hmm
    have hpq : p = (x, y, z) := coordOfNat_inj (q := (x, y, z)) hcast
    subst hpq
    obtain ⟨hscan, hcond⟩ := List.mem_filter.1 hp
    obtain ⟨h1, h2, h3⟩ := mem_scanCoords.1 hscan
    exact ⟨h1, h2, h3, hcond⟩
  · rintro ⟨h1, h2, h3, h4⟩
    have hp : ((x, y, z) : Nat × Nat × Nat) ∈
        (scanCoords g.NX g.NY g.NZ).filter fun p =>
          !(g.cell p.1 p.2.1 p.2.2).block && startsAt g d p.1 p.2.1 p.2.2 :=
      List.mem_filter.2 ⟨mem_scanCoords.2 ⟨h1, h2, h3⟩, h4⟩
    have hmm := List.mem_map_of_mem
      (fun p : Nat × Nat × Nat => (⟨(p.1 : Int), (p.2.1 : Int), (p.2.2 : Int)⟩ : Coord3)) hp
    rw [← hfold, List.mem_map] at hmm
    exact hmm

/-- C7: clue sequence numbering is start-coordinate-keyed on both the
Format A ingestion path and the derived-clue path: equal starts share a
number, distinct starts never do, across all three directions. -/
theorem numbering_start_keyed :
    (∀ (r : PuzzleRecord), r.words.isEmpty = false →
      ∀ (d1 d2 : Dir) (c1 c2 : Clue),
        c1 ∈ (loadPuzzleFromJSON r).clues.ofDir d1 →
        c2 ∈ (loadPuzzleFromJSON r).clues.ofDir d2 →
        (c1.n = c2.n ↔ c1.start = c2.start)) ∧
      (∀ (g : Grid) (d1 d2 : Dir) (c1 c2 : Clue),
        c1 ∈ (computeCluesFromWorld g).ofDir d1 →
        c2 ∈ (computeCluesFromWorld g).ofDir d2 →
        (c1.n = c2.n ↔ c1.start = c2.start)) := by
  constructor
  · intro r hw d1 d2 c1 c2 h1 h2
    rw [loadPuzzleFromJSON_formatA r hw] at h1 h2
    obtain ⟨c10, hm1, rfl⟩ := mem_attach_ofDir.1 h1
    obtain ⟨c20, hm2, rfl⟩ := mem_attach_ofDir.1 h2
    have hk := buildCluesA_start_keyed r.words (ofDir_subset_allList hm1)
      (ofDir_subset_allList hm2)
    simpa using hk
  · intro g d1 d2 c1 c2 h1 h2
    have hinv := cluesFold_number_inv g (scanCoords g.NX g.NY g.NZ) (⟨[], [], []⟩, 0)
      (by intro cc hcc; simp [Clues.allList] at hcc)
      (by intro c1 hc1; simp [Clues.allList] at hc1)
      (by intro p hp cc hcc; simp [Clues.allList] at hcc)
      (nodup_scanCoords g.NX g.NY g.NZ)
    exact hinv.2 c1 (ofDir_subset_allList h1) c2 (ofDir_subset_allList h2)

theorem numbering_start_keyed_witness :
    (((⟨1, ⟨0, 0, 0⟩, 2, some "paremale", some ['A', 'B']⟩ : Clue) ∈
        (loadPuzzleFromJSON
          ⟨2, 1, 1, [], [⟨.R, ⟨0, 0, 0⟩, ['A', 'B'], none⟩, ⟨.D, ⟨0, 0, 0⟩, ['A'], none⟩],
            [], none⟩).clues.ofDir .R ∧
      (⟨1, ⟨0, 0, 0⟩, 1, some "alla", some ['A']⟩ : Clue) ∈
        (loadPuzzleFromJSON
          ⟨2, 1, 1, [], [⟨.R, ⟨0, 0, 0⟩, ['A', 'B'], none⟩, ⟨.D, ⟨0, 0, 0⟩, ['A'], none⟩],
            [], none⟩).clues.ofDir .D) ∧
      ((⟨1, ⟨0, 0, 0⟩, 2, some "paremale", some ['A', 'B']⟩ : Clue).n =
          (⟨1, ⟨0, 0, 0⟩, 1, some "alla", some ['A']⟩ : Clue).n ↔
        (⟨1, ⟨0, 0, 0⟩, 2, some "paremale", some ['A', 'B']⟩ : Clue).start =
          (⟨1, ⟨0, 0, 0⟩, 1, some "alla", some ['A']⟩ : Clue).start)) :=
  ⟨⟨by decide, by decide⟩,
    numbering_start_keyed.1
      ⟨2, 1, 1, [], [⟨.R, ⟨0, 0, 0⟩, ['A', 'B'], none⟩, ⟨.D, ⟨0, 0, 0⟩, ['A'], none⟩], [], none⟩
      (by decide) .R .D _ _ (by decide) (by decide)⟩

/-- C8: the extractor registers a word start at an open cell in a direction
exactly when the preceding cell is off-grid or blocked and the following
cell is on-grid and open; hence a single-cell run (nothing open after it)
is never registered.  The generation-time extractor is the same scan. -/
theorem word_start_boundary (g : Grid) (d : Dir) (x y z : Nat)
    (hx : x < g.NX) (hy : y < g.NY) (hz : z < g.NZ) :
    ((∃ cc ∈ (computeCluesFromWorld g).ofDir d,
        cc.start = (⟨(x : Int), (y : Int), (z : Int)⟩ : Coord3)) ↔
      ((g.cell x y z).block = false ∧ prevBlockedOrOffGrid g d x y z = true ∧
        nextOpenInDir g d x y z = true)) ∧
      ((prevBlockedOrOffGrid g d x y z = true ∧ nextOpenInDir g d x y z = false) →
        ¬∃ cc ∈ (computeCluesFromWorld g).ofDir d,
          cc.start = (⟨(x : Int), (y : Int), (z : Int)⟩ : Coord3)) ∧
      computeDirectionalCluesJSON = computeCluesFromWorld := by
  have hiff := computeClues_start_iff g d x y z
  have hmain : (∃ cc ∈ (computeCluesFromWorld g).ofDir d,
      cc.start = (⟨(x : Int), (y : Int), (z : Int)⟩ : Coord3)) ↔
      ((g.cell x y z).block = false ∧ prevBlockedOrOffGrid g d x y z = true ∧
        nextOpenInDir g d x y z = true) := by
    rw [hiff]
    rw [Bool.and_eq_true, Bool.not_eq_true', startsAt_eq, Bool.and_eq_true]
    constructor
    · rintro ⟨_, _, _, h4, h5, h6⟩
      exact ⟨h4, h5, h6⟩
    · rintro ⟨h4, h5, h6⟩
      exact ⟨hx, hy, hz, h4, h5, h6⟩
  refine ⟨hmain, fun hbad hex => ?_, rfl⟩
  obtain ⟨_, _, hnext⟩ := hmain.1 hex
  rw [hbad.2] at hnext
  cases hnext

theorem word_start_boundary_witness :
    ((0 < 3 ∧ 0 < 1 ∧ 0 < 1) ∧
      ((∃ cc ∈ (computeCluesFromWorld (emptyWorld 3 1 1)).ofDir .R,
          cc.start = (⟨(0 : Int), (0 : Int), (0 : Int)⟩ : Coord3)) ↔
        (((emptyWorld 3 1 1).cell 0 0 0).block = false ∧
          prevBlockedOrOffGrid (emptyWorld 3 1 1) .R 0 0 0 = true ∧
          nextOpenInDir (emptyWorld 3 1 1) .R 0 0 0 = true)) ∧
        ((prevBlockedOrOffGrid (emptyWorld 3 1 1) .R 0 0 0 = true ∧
            nextOpenInDir (emptyWorld 3 1 1) .R 0 0 0 = false) →
          ¬∃ cc ∈ (computeCluesFromWorld (emptyWorld 3 1 1)).ofDir .R,
            cc.start = (⟨(0 : Int), (0 : Int), (0 : Int)⟩ : Coord3)) ∧
        computeDirectionalCluesJSON = computeCluesFromWorld) :=
  ⟨⟨by decide, by decide, by decide⟩,
    word_start_boundary (emptyWorld 3 1 1) .R 0 0 0 (by decide) (by decide) (by decide)⟩

theorem loadBase_emptyRecord_cells (nx ny nz a b c : Nat) :
    (loadBase (emptyRecord nx ny nz)).cells a b c = Cell.empty := by
  show (clearNumbers (emptyWorld nx ny nz)).cells a b c = Cell.empty
  rw [clearNumbers_cells]
  split <;> rfl

/-- On a grid with no blocked cell, a direction has at least one extracted
clue exactly when the grid has room for a run of two cells in that
direction. -/
theorem computeClues_nonempty_allOpen (g : Grid)
    (hopen : ∀ a b c, (g.cells a b c).block = false) (d : Dir) :
    ((computeCluesFromWorld g).ofDir d ≠ [] ↔
      (match d with
        | .R => 2 ≤ g.NX ∧ 1 ≤ g.NY ∧ 1 ≤ g.NZ
        | .D => 1 ≤ g.NX ∧ 2 ≤ g.NY ∧ 1 ≤ g.NZ
        | .I => 1 ≤ g.NX ∧ 1 ≤ g.NY ∧ 2 ≤ g.NZ)) := by
  have hnil : (((⟨[], [], []⟩ : Clues)).ofDir d).map (·.start) = [] := by cases d <;> rfl
  have hfold : ((computeCluesFromWorld g).ofDir d).map (·.start) =
      ((scanCoords g.NX g.NY g.NZ).filter fun p =>
          !(g.cell p.1 p.2.1 p.2.2).block && startsAt g d p.1 p.2.1 p.2.2).map
        (fun p => (⟨(p.1 : Int), (p.2.1 : Int), (p.2.2 : Int)⟩ : Coord3)) := by
    rw [computeCluesFromWorld, cluesFold_starts g d, hnil, List.nil_append]
  constructor
  · intro hne
    obtain ⟨cc, hcc⟩ := List.exists_mem_of_ne_nil _ hne
    have hmm : cc.start ∈ ((computeCluesFromWorld g).ofDir d).map (·.start) :=
      List.mem_map_of_mem _ hcc
    rw [hfold, List.mem_map] at hmm
    obtain ⟨p, hp, _⟩ := hmm
    obtain ⟨hscan, hcond⟩ := List.mem_filter.1 hp
    obtain ⟨h1, h2, h3⟩ := mem_scanCoords.1 hscan
    rw [Bool.and_eq_true] at hcond
    have hst := hcond.2
    cases d
    · simp only [startsAt, startsR, Grid.cell, hopen, Bool.or_false, Bool.not_false,
        Bool.and_true, Bool.and_eq_true, decide_eq_true_eq] at hst
      exact ⟨by omega, by omega, by omega⟩
    · simp only [startsAt, startsD, Grid.cell, hopen, Bool.or_false, Bool.not_false,
        Bool.and_true, Bool.and_eq_true, decide_eq_true_eq] at hst
      exact ⟨by omega, by omega, by omega⟩
    · simp only [startsAt, startsI, Grid.cell, hopen, Bool.or_false, Bool.not_false,
        Bool.and_true, Bool.and_eq_true, decide_eq_true_eq] at hst
      exact ⟨by omega, by omega, by omega⟩
  · intro hcond hnil2
    have hmape : ((computeCluesFromWorld g).ofDir d).map (·.start) = [] := by
      rw [hnil2]
      rfl
    rw [hfold] at hmape
    have hfil := List.map_eq_nil_iff.1 hmape
    have hmem : ((0, 0, 0) : Nat × Nat × Nat) ∈
        (scanCoords g.NX g.NY g.NZ).filter fun p =>
          !(g.cell p.1 p.2.1 p.2.2).block && startsAt g d p.1 p.2.1 p.2.2 := by
      apply List.mem_filter.2
      cases d
      · obtain ⟨k1, k2, k3⟩ := hcond
        refine ⟨mem_scanCoords.2 ⟨?_, ?_, ?_⟩, ?_⟩
        · show 0 < g.NX
          omega
        · show 0 < g.NY
          omega
        · show 0 < g.NZ
          omega
        · show (!(g.cell 0 0 0).block && startsAt g .R 0 0 0) = true
          simp only [startsAt, startsR, Grid.cell, hopen, Bool.or_false, Bool.not_false,
            Bool.true_and, Bool.and_true, Bool.and_eq_true, decide_eq_true_eq]
          exact ⟨trivial, by omega⟩
      · obtain ⟨k1, k2, k3⟩ := hcond
        refine ⟨mem_scanCoords.2 ⟨?_, ?_, ?_⟩, ?_⟩
        · show 0 < g.NX
          omega
        · show 0 < g.NY
          omega
        · show 0 < g.NZ
          omega
        · show (!(g.cell 0 0 0).block && startsAt g .D 0 0 0) = true
          simp only [startsAt, startsD, Grid.cell, hopen, Bool.or_false, Bool.not_false,
            Bool.true_and, Bool.and_true, Bool.and_eq_true, decide_eq_true_eq]
          exact ⟨trivial, by omega⟩
      · obtain ⟨k1, k2, k3⟩ := hcond
        refine ⟨mem_scanCoords.2 ⟨?_, ?_, ?_⟩, ?_⟩
        · show 0 < g.NX
          omega
        · show 0 < g.NY
          omega
        · show 0 < g.NZ
          omega
        · show (!(g.cell 0 0 0).block && startsAt g .I 0 0 0) = true
          simp only [startsAt, startsI, Grid.cell, hopen, Bool.or_false, Bool.not_false,
            Bool.true_and, Bool.and_true, Bool.and_eq_true, decide_eq_true_eq]
          exact ⟨trivial, by omega⟩
    rw [hfil] at hmem
    cases hmem

/-- C5, amended: loading a record that declares only dimensions succeeds
with no diagnostics and an all-open, letterless grid, but the three clue
collections are the ones derived from that all-open grid by the clue
extractor, not empty: a direction list is nonempty exactly when the grid
has room for a two-cell run in that direction. -/
theorem emptyRecord_load (nx ny nz : Nat) :
    (∀ a, a < nx → ∀ b, b < ny → ∀ c, c < nz →
      (((loadPuzzleFromJSON (emptyRecord nx ny nz)).grid.cells a b c).block = false ∧
        ((loadPuzzleFromJSON (emptyRecord nx ny nz)).grid.cells a b c).sol = none ∧
        ((loadPuzzleFromJSON (emptyRecord nx ny nz)).grid.cells a b c).ch = none)) ∧
      (loadPuzzleFromJSON (emptyRecord nx ny nz)).diags = [] ∧
      ((loadPuzzleFromJSON (emptyRecord nx ny nz)).clues.R ≠ [] ↔
        2 ≤ nx ∧ 1 ≤ ny ∧ 1 ≤ nz) ∧
      ((loadPuzzleFromJSON (emptyRecord nx ny nz)).clues.D ≠ [] ↔
        1 ≤ nx ∧ 2 ≤ ny ∧ 1 ≤ nz) ∧
      ((loadPuzzleFromJSON (emptyRecord nx ny nz)).clues.I ≠ [] ↔
        1 ≤ nx ∧ 1 ≤ ny ∧ 2 ≤ nz) := by
  have hres := loadPuzzleFromJSON_formatB (emptyRecord nx ny nz) rfl
  have hg2 : applySolution (loadBase (emptyRecord nx ny nz))
      (emptyRecord nx ny nz).solution = loadBase (emptyRecord nx ny nz) := rfl
  have hcl : (if hasCluesB (emptyRecord nx ny nz) then
        match (emptyRecord nx ny nz).clues with
        | some t => (⟨t.1, t.2.1, t.2.2⟩ : Clues)
        | none => ⟨[], [], []⟩
      else computeCluesFromWorld (loadBase (emptyRecord nx ny nz))) =
      computeCluesFromWorld (loadBase (emptyRecord nx ny nz)) := by
    simp only [show hasCluesB (emptyRecord nx ny nz) = false from rfl, Bool.false_eq_true,
      if_false]
  rw [hres]
  have hopen : ∀ a b c, ((loadBase (emptyRecord nx ny nz)).cells a b c).block = false := by
    intro a b c
    rw [loadBase_emptyRecord_cells]
    rfl
  have hNX : (loadBase (emptyRecord nx ny nz)).NX = nx := rfl
  have hNY : (loadBase (emptyRecord nx ny nz)).NY = ny := rfl
  have hNZ : (loadBase (emptyRecord nx ny nz)).NZ = nz := rfl
  refine ⟨?_, rfl, ?_, ?_, ?_⟩
  · intro a _ b _ c _
    rw [hg2, hcl]
    have hsn := setNums_cells (loadBase (emptyRecord nx ny nz))
      (ensureHintFields (computeCluesFromWorld (loadBase (emptyRecord nx ny nz)))) a b c
    refine ⟨?_, ?_, ?_⟩
    · rw [hsn.2.1, loadBase_emptyRecord_cells]
      rfl
    · rw [hsn.2.2.2.1, loadBase_emptyRecord_cells]
      rfl
    · rw [hsn.2.2.1, loadBase_emptyRecord_cells]
      rfl
  · rw [hg2, hcl]
    have hbase := computeClues_nonempty_allOpen (loadBase (emptyRecord nx ny nz)) hopen .R
    rw [hNX, hNY, hNZ] at hbase
    simp only [attachAnswersToClues, ensureHintFields, Clues.ofDir] at hbase ⊢
    rw [← hbase]
    simp [List.map_eq_nil_iff]
  · rw [hg2, hcl]
    have hbase := computeClues_nonempty_allOpen (loadBase (emptyRecord nx ny nz)) hopen .D
    rw [hNX, hNY, hNZ] at hbase
    simp only [attachAnswersToClues, ensureHintFields, Clues.ofDir] at hbase ⊢
    rw [← hbase]
    simp [List.map_eq_nil_iff]
  · rw [hg2, hcl]
    have hbase := computeClues_nonempty_allOpen (loadBase (emptyRecord nx ny nz)) hopen .I
    rw [hNX, hNY, hNZ] at hbase
    simp only [attachAnswersToClues, ensureHintFields, Clues.ofDir] at hbase ⊢
    rw [← hbase]
    simp [List.map_eq_nil_iff]

/-- C5, counterexample to the claim as stated: loading the bare record with
dimensions 2 x 1 x 1 yields a nonempty rightward clue collection (the clue
extractor runs on the all-open grid), not three empty collections. -/
theorem emptyRecord_load_counterexample :
    (loadPuzzleFromJSON (emptyRecord 2 1 1)).clues.R ≠ [] ∧
      (loadPuzzleFromJSON (emptyRecord 2 1 1)).diags = [] := by
  decide

theorem emptyRecord_load_witness :
    ((0 < 3 ∧ 0 < 1 ∧ 0 < 1) ∧
      (((loadPuzzleFromJSON (emptyRecord 3 1 1)).grid.cells 0 0 0).block = false ∧
        ((loadPuzzleFromJSON (emptyRecord 3 1 1)).grid.cells 0 0 0).sol = none ∧
        ((loadPuzzleFromJSON (emptyRecord 3 1 1)).grid.cells 0 0 0).ch = none)) ∧
      (loadPuzzleFromJSON (emptyRecord 3 1 1)).diags = [] ∧
      ((loadPuzzleFromJSON (emptyRecord 3 1 1)).clues.R ≠ [] ↔
        2 ≤ 3 ∧ 1 ≤ 1 ∧ 1 ≤ 1) ∧
      ((loadPuzzleFromJSON (emptyRecord 3 1 1)).clues.D ≠ [] ↔
        1 ≤ 3 ∧ 2 ≤ 1 ∧ 1 ≤ 1) ∧
      ((loadPuzzleFromJSON (emptyRecord 3 1 1)).clues.I ≠ [] ↔
        1 ≤ 3 ∧ 1 ≤ 1 ∧ 2 ≤ 1) :=
  ⟨⟨⟨by decide, by decide, by decide⟩,
      (emptyRecord_load 3 1 1).1 0 (by decide) 0 (by decide) 0 (by decide)⟩,
    (emptyRecord_load 3 1 1).2⟩

/-- C3, amended: the attached answer of every loaded clue is the
concatenation of the solution letters along the maximal run from its start
(placeholder for empty letters), whose length is the run length wordLen —
not the clue's stored len field; the two agree exactly when len equals the
run length. -/
theorem answerBinder_reads_maximal_run :
    (∀ (r : PuzzleRecord) (d : Dir) (c : Clue), c ∈ (loadPuzzleFromJSON r).clues.ofDir d →
      c.answer = some (specRunConcat (loadPuzzleFromJSON r).grid c.start d)) ∧
      (∀ (g : Grid) (s : Coord3) (d : Dir), (specRunConcat g s d).length = wordLen g s d) := by
  constructor
  · intro r d c hc
    cases hw : r.words.isEmpty with
    | false =>
      rw [loadPuzzleFromJSON_formatA r hw] at hc ⊢
      obtain ⟨c0, h0, rfl⟩ := mem_attach_ofDir.1 hc
      simp [readWordFromSolution_eq_specRunConcat]
    | true =>
      rw [loadPuzzleFromJSON_formatB r hw] at hc ⊢
      obtain ⟨c0, h0, rfl⟩ := mem_attach_ofDir.1 hc
      simp [readWordFromSolution_eq_specRunConcat]
  · intro g s d
    rw [specRunConcat, specLenConcat]
    simp

/-- C3, counterexample to the claim as stated: a Format A word of length 2
inside a longer open run.  The stored len is 2, but the bound answer walks
the maximal run and has 3 characters, so it is not the concatenation over
exactly len steps. -/
theorem answerBinder_len_counterexample :
    ((loadPuzzleFromJSON
        ⟨3, 1, 1, [], [⟨.R, ⟨0, 0, 0⟩, ['A', 'B'], none⟩], [], none⟩).clues.R.map
      (·.answer)) = [some ['A', 'B', '?']] ∧
      ((loadPuzzleFromJSON
        ⟨3, 1, 1, [], [⟨.R, ⟨0, 0, 0⟩, ['A', 'B'], none⟩], [], none⟩).clues.R.map
      (·.len)) = [2] ∧
      specLenConcat
        (loadPuzzleFromJSON
          ⟨3, 1, 1, [], [⟨.R, ⟨0, 0, 0⟩, ['A', 'B'], none⟩], [], none⟩).grid
        ⟨0, 0, 0⟩ .R 2 = ['A', 'B'] ∧
      (['A', 'B', '?'] : List Char) ≠ ['A', 'B'] := by
  decide

theorem answerBinder_reads_maximal_run_witness :
    ((⟨1, ⟨0, 0, 0⟩, 2, some "paremale", some ['A', 'B', '?']⟩ : Clue) ∈
        (loadPuzzleFromJSON
          ⟨3, 1, 1, [], [⟨.R, ⟨0, 0, 0⟩, ['A', 'B'], none⟩], [], none⟩).clues.ofDir .R) ∧
      (⟨1, ⟨0, 0, 0⟩, 2, some "paremale", some ['A', 'B', '?']⟩ : Clue).answer =
        some (specRunConcat
          (loadPuzzleFromJSON
            ⟨3, 1, 1, [], [⟨.R, ⟨0, 0, 0⟩, ['A', 'B'], none⟩], [], none⟩).grid
          (⟨1, ⟨0, 0, 0⟩, 2, some "paremale", some ['A', 'B', '?']⟩ : Clue).start .R) :=
  ⟨by decide,
    answerBinder_reads_maximal_run.1
      ⟨3, 1, 1, [], [⟨.R, ⟨0, 0, 0⟩, ['A', 'B'], none⟩], [], none⟩ .R _ (by decide)⟩

/-- C4: the source contradicts its own intent here.  ensureHintFields is
meant to fill every missing hint with the per-direction default, but the R
loop is commented out (replaced by a console.log), so a Format B record
with an explicit R clue lacking a hint keeps hint-less R clues, while D and
I clues do receive their defaults. -/
theorem ensureHintFields_skips_R :
    ((loadPuzzleFromJSON
        ⟨2, 1, 1, [], [],
          [⟨0, 0, 0, some 'A'⟩, ⟨1, 0, 0, some 'B'⟩],
          some ([⟨5, ⟨0, 0, 0⟩, 2, none, none⟩], [⟨6, ⟨0, 0, 0⟩, 1, none, none⟩],
            [⟨7, ⟨0, 0, 0⟩, 1, none, none⟩])⟩).clues.R.map (·.hint) = [none]) ∧
      ((loadPuzzleFromJSON
        ⟨2, 1, 1, [], [],
          [⟨0, 0, 0, some 'A'⟩, ⟨1, 0, 0, some 'B'⟩],
          some ([⟨5, ⟨0, 0, 0⟩, 2, none, none⟩], [⟨6, ⟨0, 0, 0⟩, 1, none, none⟩],
            [⟨7, ⟨0, 0, 0⟩, 1, none, none⟩])⟩).clues.D.map (·.hint) = [some "alla"]) ∧
      ((loadPuzzleFromJSON
        ⟨2, 1, 1, [], [],
          [⟨0, 0, 0, some 'A'⟩, ⟨1, 0, 0, some 'B'⟩],
          some ([⟨5, ⟨0, 0, 0⟩, 2, none, none⟩], [⟨6, ⟨0, 0, 0⟩, 1, none, none⟩],
            [⟨7, ⟨0, 0, 0⟩, 1, none, none⟩])⟩).clues.I.map (·.hint) = [some "sisse"]) ∧
      ensureHintFields ⟨[⟨5, ⟨0, 0, 0⟩, 2, none, none⟩], [], []⟩ =
        ⟨[⟨5, ⟨0, 0, 0⟩, 2, none, none⟩], [], []⟩ := by
  decide

/-- Flipping the predicate at one element occurring exactly once raises the
count by one. -/
theorem countP_update {α : Type} [DecidableEq α] (l : List α) (a : α) (p q : α → Bool)
    (hcount : l.count a = 1) (hagree : ∀ b ∈ l, b ≠ a → q b = p b)
    (hpa : p a = false) (hqa : q a = true) : l.countP q = l.countP p + 1 := by
  induction l with
  | nil => simp at hcount
  | cons b l ih =>
    rw [List.count_cons] at hcount
    rw [List.countP_cons, List.countP_cons]
    by_cases hba : b = a
    · subst hba
      have htail : l.count b = 0 := by
        simp at hcount
        omega
      have hnot : b ∉ l := List.count_eq_zero.1 htail
      have heq : l.countP q = l.countP p := by
        apply List.countP_congr
        intro x hx
        rw [hagree x (List.mem_cons_of_mem b hx) (fun hxa => hnot (hxa ▸ hx))]
      rw [heq, hpa, hqa]
      simp
    · have hcount' : l.count a = 1 := by
        have : (b == a) = false := beq_eq_false_iff_ne.2 hba
        rw [this] at hcount
        simpa using hcount
      have hqb : q b = p b := hagree b (List.mem_cons_self b l) hba
      rw [hqb, ih hcount' fun x hx hxa => hagree x (List.mem_cons_of_mem b hx) hxa]
      omega

@[simp] theorem setBlock_NX (g : Grid) (x y z : Nat) (v : Bool) :
    (g.setBlock x y z v).NX = g.NX := rfl

@[simp] theorem setBlock_NY (g : Grid) (x y z : Nat) (v : Bool) :
    (g.setBlock x y z v).NY = g.NY := rfl

@[simp] theorem setBlock_NZ (g : Grid) (x y z : Nat) (v : Bool) :
    (g.setBlock x y z v).NZ = g.NZ := rfl

/-- Blocking one open in-range cell raises the blocked-cell count by one. -/
theorem countBlocks_setBlock (g : Grid) (x y z : Nat) (hx : x < g.NX) (hy : y < g.NY)
    (hz : z < g.NZ) (hopen : (g.cells x y z).block = false) :
    countBlocks (g.setBlock x y z true) = countBlocks g + 1 := by
  rw [countBlocks, countBlocks, blocksList, blocksList]
  rw [← List.countP_eq_length_filter, ← List.countP_eq_length_filter]
  show (scanCoords g.NX g.NY g.NZ).countP _ = (scanCoords g.NX g.NY g.NZ).countP _ + 1
  apply countP_update (a := (x, y, z))
  · exact List.count_eq_one_of_mem (nodup_scanCoords g.NX g.NY g.NZ)
      (mem_scanCoords.2 ⟨hx, hy, hz⟩)
  · intro b hb hba
    show ((g.setBlock x y z true).cell b.1 b.2.1 b.2.2).block = (g.cell b.1 b.2.1 b.2.2).block
    rw [Grid.cell, Grid.cell, Grid.setBlock, modifyCell_cells]
    rw [if_neg]
    intro ⟨h1, h2, h3⟩
    exact hba (by
      obtain ⟨b1, b2, b3⟩ := b
      simp only at h1 h2 h3
      rw [h1, h2, h3])
  · exact hopen
  · show ((g.setBlock x y z true).cell x y z).block = true
    rw [Grid.cell, Grid.setBlock, modifyCell_self]

/-- The generator loop: the accepted-block counter tracks the number of
blocked cells exactly, never exceeds the target, consumes at most one try
per supplied pick, and stops short of the full pick budget only when the
target was reached. -/
theorem genLoop_count (minOpen target : Nat) (picks : List (Nat × Nat × Nat)) (g : Grid)
    (b t0 : Nat)
    (hpicks : ∀ p ∈ picks, p.1 < g.NX ∧ p.2.1 < g.NY ∧ p.2.2 < g.NZ)
    (hb : b ≤ target) :
    countBlocks (generateConnectedBlocks minOpen target picks g b t0).1 + b =
        countBlocks g + (generateConnectedBlocks minOpen target picks g b t0).2.1 ∧
      b ≤ (generateConnectedBlocks minOpen target picks g b t0).2.1 ∧
      (generateConnectedBlocks minOpen target picks g b t0).2.1 ≤ target ∧
      (generateConnectedBlocks minOpen target picks g b t0).2.2 ≤ t0 + picks.length ∧
      ((generateConnectedBlocks minOpen target picks g b t0).2.2 < t0 + picks.length →
        (generateConnectedBlocks minOpen target picks g b t0).2.1 = target) := by
  induction picks generalizing g b t0 with
  | nil =>
    rw [generateConnectedBlocks]
    refine ⟨rfl, le_refl b, hb, ?_, ?_⟩
    · show t0 ≤ t0 + ([] : List (Nat × Nat × Nat)).length
      simp
    · intro h
      exact absurd h (by simp)
  | cons p rest ih =>
    rw [generateConnectedBlocks]
    by_cases hlt : b < target
    · rw [if_pos hlt]
      by_cases hblk : (g.cell p.1 p.2.1 p.2.2).block = true
      · rw [if_pos hblk]
        obtain ⟨k1, k2, k3, k4, k5⟩ := ih g b (t0 + 1)
          (fun q hq => hpicks q (List.mem_cons_of_mem p hq)) hb
        exact ⟨k1, k2, k3, by rw [List.length_cons]; omega,
          fun h => k5 (by rw [List.length_cons] at h; omega)⟩
      · rw [if_neg hblk]
        by_cases hacc : genAccept minOpen (g.setBlock p.1 p.2.1 p.2.2 true) p.1 p.2.1 p.2.2 =
            true
        · rw [if_pos hacc]
          obtain ⟨hp1, hp2, hp3⟩ := hpicks p (List.mem_cons_self p rest)
          have hcnt := countBlocks_setBlock g p.1 p.2.1 p.2.2 hp1 hp2 hp3
            (Bool.not_eq_true _ ▸ hblk)
          obtain ⟨k1, k2, k3, k4, k5⟩ := ih (g.setBlock p.1 p.2.1 p.2.2 true) (b + 1) (t0 + 1)
            (fun q hq => hpicks q (List.mem_cons_of_mem p hq)) (by omega)
          refine ⟨by rw [hcnt] at k1; omega, by omega, k3,
            by rw [List.length_cons]; omega,
            fun h => k5 (by rw [List.length_cons] at h; omega)⟩
        · rw [if_neg hacc]
          obtain ⟨k1, k2, k3, k4, k5⟩ := ih g b (t0 + 1)
            (fun q hq => hpicks q (List.mem_cons_of_mem p hq)) hb
          exact ⟨k1, k2, k3, by rw [List.length_cons]; omega,
            fun h => k5 (by rw [List.length_cons] at h; omega)⟩
    · rw [if_neg hlt]
      refine ⟨rfl, le_refl b, hb, ?_, ?_⟩
      · show t0 ≤ t0 + (p :: rest).length
        exact Nat.le_add_right t0 _
      · intro _
        show b = target
        omega

theorem countBlocks_emptyWorld (nx ny nz : Nat) : countBlocks (emptyWorld nx ny nz) = 0 := by
  simp [countBlocks, blocksList, Grid.cell, Cell.empty]

/-- C9: at termination the number of blocked cells equals the accepted
counter, is at most floor(targetBlockFrac x volume), and equals that target
exactly whenever the loop stopped before consuming the whole maxTries pick
budget; exhausting the budget below target still returns a result. -/
theorem generator_block_count (nx ny nz minOpen : Nat) (frac : ℚ)
    (picks : List (Nat × Nat × Nat))
    (hpicks : ∀ p ∈ picks, p.1 < nx ∧ p.2.1 < ny ∧ p.2.2 < nz) :
    countBlocks (generateConnectedBlocks minOpen (targetBlocks frac (nx * ny * nz)) picks
        (emptyWorld nx ny nz) 0 0).1 =
      (generateConnectedBlocks minOpen (targetBlocks frac (nx * ny * nz)) picks
        (emptyWorld nx ny nz) 0 0).2.1 ∧
      countBlocks (generateConnectedBlocks minOpen (targetBlocks frac (nx * ny * nz)) picks
        (emptyWorld nx ny nz) 0 0).1 ≤ targetBlocks frac (nx * ny * nz) ∧
      ((generateConnectedBlocks minOpen (targetBlocks frac (nx * ny * nz)) picks
          (emptyWorld nx ny nz) 0 0).2.2 < picks.length →
        countBlocks (generateConnectedBlocks minOpen (targetBlocks frac (nx * ny * nz)) picks
          (emptyWorld nx ny nz) 0 0).1 = targetBlocks frac (nx * ny * nz)) := by
  obtain ⟨k1, k2, k3, k4, k5⟩ := genLoop_count minOpen (targetBlocks frac (nx * ny * nz))
    picks (emptyWorld nx ny nz) 0 0 hpicks (Nat.zero_le _)
  rw [countBlocks_emptyWorld] at k1
  have hcb : countBlocks (generateConnectedBlocks minOpen (targetBlocks frac (nx * ny * nz))
      picks (emptyWorld nx ny nz) 0 0).1 =
      (generateConnectedBlocks minOpen (targetBlocks frac (nx * ny * nz)) picks
        (emptyWorld nx ny nz) 0 0).2.1 := by omega
  refine ⟨hcb, by omega, fun h => ?_⟩
  rw [hcb]
  exact k5 (by omega)

theorem generator_block_count_witness :
    ((∀ p ∈ ([((0 : Nat), (0 : Nat), (0 : Nat))] : List (Nat × Nat × Nat)),
        p.1 < 2 ∧ p.2.1 < 1 ∧ p.2.2 < 1) ∧
      (countBlocks (generateConnectedBlocks 1 (targetBlocks (1 / 2) (2 * 1 * 1))
          [(0, 0, 0)] (emptyWorld 2 1 1) 0 0).1 =
        (generateConnectedBlocks 1 (targetBlocks (1 / 2) (2 * 1 * 1))
          [(0, 0, 0)] (emptyWorld 2 1 1) 0 0).2.1 ∧
        countBlocks (generateConnectedBlocks 1 (targetBlocks (1 / 2) (2 * 1 * 1))
          [(0, 0, 0)] (emptyWorld 2 1 1) 0 0).1 ≤ targetBlocks (1 / 2) (2 * 1 * 1) ∧
        ((generateConnectedBlocks 1 (targetBlocks (1 / 2) (2 * 1 * 1))
            [(0, 0, 0)] (emptyWorld 2 1 1) 0 0).2.2 <
            ([((0 : Nat), (0 : Nat), (0 : Nat))] : List (Nat × Nat × Nat)).length →
          countBlocks (generateConnectedBlocks 1 (targetBlocks (1 / 2) (2 * 1 * 1))
            [(0, 0, 0)] (emptyWorld 2 1 1) 0 0).1 = targetBlocks (1 / 2) (2 * 1 * 1)))) :=
  ⟨by decide, generator_block_count 2 1 1 1 (1 / 2) [(0, 0, 0)] (by decide)⟩

/-- The block flag of the final grid is exactly the block flag set by the
blocks phase: the later phases never touch it. -/
theorem load_grid_block (r : PuzzleRecord) (a b c : Nat) :
    ((loadPuzzleFromJSON r).grid.cells a b c).block =
      ((applyBlocks (emptyWorld r.nx r.ny r.nz) r.blocks).cells a b c).block := by
  have hbase : ((loadBase r).cells a b c).block =
      ((applyBlocks (emptyWorld r.nx r.ny r.nz) r.blocks).cells a b c).block := by
    rw [loadBase, clearNumbers_cells]
    split <;> rfl
  cases hw : r.words.isEmpty with
  | true =>
    rw [loadPuzzleFromJSON_formatB r hw]
    rw [(setNums_cells (applySolution (loadBase r) r.solution)
        (ensureHintFields
          (if hasCluesB r then
            match r.clues with
            | some t => ⟨t.1, t.2.1, t.2.2⟩
            | none => ⟨[], [], []⟩
          else computeCluesFromWorld (applySolution (loadBase r) r.solution))) a b c).2.1,
      (applySolution_fields (loadBase r) r.solution a b c).1, hbase]
  | false =>
    rw [loadPuzzleFromJSON_formatA r hw]
    rw [(setNums_cells (placeWords (loadBase r) r.words).1 (buildCluesA r.words).1 a b c).2.1,
      (placeWords_fields r.words (loadBase r) a b c).2.1, hbase]

/-- C10: block entries outside the declared dimensions are skipped silently
and without effect (the whole load result is the same as with the in-range
sublist, so no cell and no diagnostic differs), while every in-range entry
is applied. -/
theorem blocks_oob_skipped (r : PuzzleRecord) :
    loadPuzzleFromJSON r =
      loadPuzzleFromJSON { r with blocks :=
        (r.blocks.filter (fun e => inBoundsAt (emptyWorld r.nx r.ny r.nz) e)) } ∧
      (∀ e ∈ r.blocks, inBoundsAt (emptyWorld r.nx r.ny r.nz) e = true →
        ((loadPuzzleFromJSON r).grid.cells e.x.toNat e.y.toNat e.z.toNat).block = true) := by
  constructor
  · obtain ⟨nx, ny, nz, bs, ws, ss, cl⟩ := r
    have hfil := applyBlocks_filter (emptyWorld nx ny nz) bs
    show loadPuzzleFromJSON ⟨nx, ny, nz, bs, ws, ss, cl⟩ =
      loadPuzzleFromJSON
        ⟨nx, ny, nz, bs.filter fun e => inBoundsAt (emptyWorld nx ny nz) e, ws, ss, cl⟩
    simp only [loadPuzzleFromJSON, hfil, hasCluesB]
  · intro e he hin
    rw [load_grid_block]
    exact applyBlocks_applies (emptyWorld r.nx r.ny r.nz) r.blocks e he hin

theorem blocks_oob_skipped_witness :
    (loadPuzzleFromJSON ⟨2, 1, 1, [⟨5, 0, 0⟩, ⟨1, 0, 0⟩], [], [], none⟩ =
      loadPuzzleFromJSON
        { (⟨2, 1, 1, [⟨5, 0, 0⟩, ⟨1, 0, 0⟩], [], [], none⟩ : PuzzleRecord) with blocks :=
          ((⟨2, 1, 1, [⟨5, 0, 0⟩, ⟨1, 0, 0⟩], [], [], none⟩ : PuzzleRecord).blocks.filter
            (fun e => inBoundsAt (emptyWorld 2 1 1) e)) }) ∧
      (((⟨1, 0, 0⟩ : Coord3) ∈
          (⟨2, 1, 1, [⟨5, 0, 0⟩, ⟨1, 0, 0⟩], [], [], none⟩ : PuzzleRecord).blocks ∧
        inBoundsAt (emptyWorld 2 1 1) ⟨1, 0, 0⟩ = true) ∧
        ((loadPuzzleFromJSON
            ⟨2, 1, 1, [⟨5, 0, 0⟩, ⟨1, 0, 0⟩], [], [], none⟩).grid.cells
          (1 : Int).toNat (0 : Int).toNat (0 : Int).toNat).block = true) :=
  ⟨(blocks_oob_skipped ⟨2, 1, 1, [⟨5, 0, 0⟩, ⟨1, 0, 0⟩], [], [], none⟩).1,
    ⟨by decide, by decide⟩,
    (blocks_oob_skipped ⟨2, 1, 1, [⟨5, 0, 0⟩, ⟨1, 0, 0⟩], [], [], none⟩).2 ⟨1, 0, 0⟩
      (by decide) (by decide)⟩

/-- Positions along one direction are pairwise distinct: the coordinate on
the direction axis strictly increases. -/
theorem stepN_inj (c : Coord3) (d : Dir) {i j : Nat} (h : c.stepN d i = c.stepN d j) :
    i = j := by
  cases d <;>
    simp only [Coord3.stepN, Coord3.mk.injEq, Dir.dx, Dir.dy, Dir.dz, mul_one, mul_zero,
      add_zero, add_right_inj] at h <;>
    omega

/-- Two in-bounds coordinates with the same truncations are equal. -/
theorem coord_eq_of_toNat_eq {g : Grid} {p q : Coord3} (hp : inBoundsAt g p = true)
    (hq : inBoundsAt g q = true) (hx : p.x.toNat = q.x.toNat) (hy : p.y.toNat = q.y.toNat)
    (hz : p.z.toNat = q.z.toNat) : p = q := by
  have e1 := start_eq_of_toNat hp rfl rfl rfl
  have e2 := start_eq_of_toNat hq rfl rfl rfl
  rw [hx, hy, hz] at e1
  exact e1.trans e2.symm

/-- The base of a run and any later in-bounds position of the same run
name different cells of the world array. -/
theorem stepN_toNat_ne0 {g : Grid} {c : Coord3} {d : Dir} {i : Nat}
    (hin0 : inBoundsAt g c = true) (hini : inBoundsAt g (c.stepN d (i + 1)) = true) :
    ¬(c.x.toNat = (c.stepN d (i + 1)).x.toNat ∧ c.y.toNat = (c.stepN d (i + 1)).y.toNat ∧
      c.z.toNat = (c.stepN d (i + 1)).z.toNat) := by
  rintro ⟨hx, hy, hz⟩
  have heq := coord_eq_of_toNat_eq hin0 hini hx hy hz
  have h0 : c.stepN d 0 = c.stepN d (i + 1) := (stepN_zero c d).trans heq
  exact absurd (stepN_inj c d h0) (by omega)

theorem setSolAt_block (g : Grid) (c0 : Coord3) (ch : Char) (a b c' : Nat) :
    ((g.setSolAt c0 ch).cells a b c').block = (g.cells a b c').block := by
  rw [setSolAt_cells]
  split <;> rfl

theorem setSolAt_cellAt_block (g : Grid) (c0 : Coord3) (ch : Char) (p : Coord3) :
    ((g.setSolAt c0 ch).cellAt p).block = (g.cellAt p).block := by
  simp only [Grid.cellAt, Grid.cell]
  exact setSolAt_block g c0 ch _ _ _

theorem conflictsFrom_cons (g : Grid) (d : Dir) (c : Coord3) (ch : Char) (rest : List Char) :
    conflictsFrom g d c (ch :: rest) =
      (match (g.cellAt c).sol with
        | some had => if had ≠ ch then 1 else 0
        | none => 0) + conflictsFrom g d (c.stepBy d) rest := rfl

/-- conflictsFrom only reads the solution letters along the walk. -/
theorem conflictsFrom_congr (g h : Grid) (d : Dir) (l : List Char) :
    ∀ c : Coord3,
      (∀ i, i < l.length → (h.cellAt (c.stepN d i)).sol = (g.cellAt (c.stepN d i)).sol) →
      conflictsFrom h d c l = conflictsFrom g d c l := by
  induction l with
  | nil => intro c _; rfl
  | cons ch rest ih =>
    intro c hsol
    have h0 := hsol 0 (Nat.succ_pos _)
    rw [stepN_zero] at h0
    have htail : conflictsFrom h d (c.stepBy d) rest = conflictsFrom g d (c.stepBy d) rest := by
      refine ih (c.stepBy d) fun i hi => ?_
      have h1 := hsol (i + 1) (by simp only [List.length_cons]; omega)
      rw [stepN_succ] at h1
      exact h1
    rw [conflictsFrom_cons, conflictsFrom_cons, h0, htail]

/-- A walk over letterless cells reports no conflict. -/
theorem conflictsFrom_eq_zero (g : Grid) (d : Dir) (l : List Char) :
    ∀ c : Coord3, (∀ i, i < l.length → (g.cellAt (c.stepN d i)).sol = none) →
      conflictsFrom g d c l = 0 := by
  induction l with
  | nil => intro c _; rfl
  | cons ch rest ih =>
    intro c hnone
    have h0 := hnone 0 (Nat.succ_pos _)
    rw [stepN_zero] at h0
    have htail : conflictsFrom g d (c.stepBy d) rest = 0 := by
      refine ih (c.stepBy d) fun i hi => ?_
      have h1 := hnone (i + 1) (by simp only [List.length_cons]; omega)
      rw [stepN_succ] at h1
      exact h1
    rw [conflictsFrom_cons, h0, htail]

/-- A walk meeting exactly one present letter, a disagreeing one, reports
exactly one conflict. -/
theorem conflictsFrom_single (g : Grid) (d : Dir) (had : Char) (l : List Char) :
    ∀ (c : Coord3) (j0 : Nat), j0 < l.length →
      (g.cellAt (c.stepN d j0)).sol = some had → had ≠ l.getD j0 'A' →
      (∀ j, j < l.length → j ≠ j0 → (g.cellAt (c.stepN d j)).sol = none) →
      conflictsFrom g d c l = 1 := by
  induction l with
  | nil => intro c j0 hj0 _ _ _; exact absurd hj0 (by simp)
  | cons ch rest ih =>
    intro c j0 hj0 hhad hne hothers
    cases j0 with
    | zero =>
      have h00 : (g.cellAt c).sol = some had := by
        have h01 := hhad
        rw [stepN_zero] at h01
        exact h01
      have hne0 : had ≠ ch := by simpa using hne
      have htail : conflictsFrom g d (c.stepBy d) rest = 0 :=
        conflictsFrom_eq_zero g d rest (c.stepBy d) fun i hi => by
          have h1 := hothers (i + 1) (by simp only [List.length_cons]; omega) (by omega)
          rw [stepN_succ] at h1
          exact h1
      rw [conflictsFrom_cons, h00, htail]
      simp [hne0]
    | succ k =>
      have h00 : (g.cellAt c).sol = none := by
        have h01 := hothers 0 (Nat.succ_pos _) (by omega)
        rw [stepN_zero] at h01
        exact h01
      have hk : k < rest.length := by simp only [List.length_cons] at hj0; omega
      have hhad1 : (g.cellAt ((c.stepBy d).stepN d k)).sol = some had := by
        rw [← stepN_succ]
        exact hhad
      have hne1 : had ≠ rest.getD k 'A' := by simpa using hne
      have hoth1 : ∀ j, j < rest.length → j ≠ k →
          (g.cellAt ((c.stepBy d).stepN d j)).sol = none := by
        intro j hj hjk
        have h1 := hothers (j + 1) (by simp only [List.length_cons]; omega) (by omega)
        rw [stepN_succ] at h1
        exact h1
      rw [conflictsFrom_cons, h00, ih (c.stepBy d) k hk hhad1 hne1 hoth1]

/-- Every in-bounds cell of the freshly loaded base world is letterless. -/
theorem loadBase_sol_none (r : PuzzleRecord) (p : Coord3)
    (hin : inBoundsAt (loadBase r) p = true) : ((loadBase r).cellAt p).sol = none := by
  obtain ⟨hx0, hx1, hy0, hy1, hz0, hz1⟩ := inBoundsAt_iff.1 hin
  obtain ⟨d1, d2, d3⟩ := loadBase_dims r
  rw [d1] at hx1
  rw [d2] at hy1
  rw [d3] at hz1
  rw [Grid.cellAt, Grid.cell]
  exact (loadBase_cells r p.x.toNat p.y.toNat p.z.toNat (by omega) (by omega) (by omega)).2.1

/-- A clean run of the Format A word loop: when every position of the walk
is in-bounds and open, the loop writes each letter at its own position,
touches no other cell, and its conflict diagnostics are exactly the
disagreements against the letters present before the word was written. -/
theorem placeWordGo_clean (w : WordRec) (l : List Char) :
    ∀ (g : Grid) (c : Coord3),
      (∀ i, i < l.length → inBoundsAt g (c.stepN w.dir i) = true ∧
        (g.cellAt (c.stepN w.dir i)).block = false) →
      ((∀ i, i < l.length →
          ((placeWordGo w g c l).1.cellAt (c.stepN w.dir i)).sol = some (l.getD i 'A')) ∧
        (∀ a b c', (∀ i, i < l.length →
            ¬(a = (c.stepN w.dir i).x.toNat ∧ b = (c.stepN w.dir i).y.toNat ∧
              c' = (c.stepN w.dir i).z.toNat)) →
          (placeWordGo w g c l).1.cells a b c' = g.cells a b c') ∧
        (placeWordGo w g c l).2.countP Diag.isConflict = conflictsFrom g w.dir c l) := by
  induction l with
  | nil =>
    intro g c _
    exact ⟨fun i hi => absurd hi (by simp), fun a b c' _ => rfl, rfl⟩
  | cons ch rest ih =>
    intro g c hok
    have h0 := hok 0 (Nat.succ_pos _)
    rw [stepN_zero] at h0
    have hsplit : placeWordGo w g c (ch :: rest) =
        ((placeWordGo w (g.setSolAt c ch) (c.stepBy w.dir) rest).1,
          (match (g.cellAt c).sol with
            | some had => if had ≠ ch then [Diag.crossingConflict w c had ch] else []
            | none => []) ++ (placeWordGo w (g.setSolAt c ch) (c.stepBy w.dir) rest).2) := by
      rw [placeWordGo_cons, if_neg (by simp [h0.1]), if_neg (by simp [h0.2])]
    have hok1 : ∀ i, i < rest.length →
        inBoundsAt (g.setSolAt c ch) ((c.stepBy w.dir).stepN w.dir i) = true ∧
          ((g.setSolAt c ch).cellAt ((c.stepBy w.dir).stepN w.dir i)).block = false := by
      intro i hi
      have h1 := hok (i + 1) (by simp only [List.length_cons]; omega)
      rw [stepN_succ] at h1
      exact ⟨(inBoundsAt_eq_of_dims rfl rfl rfl _).trans h1.1,
        (setSolAt_cellAt_block g c ch _).trans h1.2⟩
    have ihr := ih (g.setSolAt c ch) (c.stepBy w.dir) hok1
    have havoid0 : ∀ i, i < rest.length →
        ¬(c.x.toNat = ((c.stepBy w.dir).stepN w.dir i).x.toNat ∧
          c.y.toNat = ((c.stepBy w.dir).stepN w.dir i).y.toNat ∧
          c.z.toNat = ((c.stepBy w.dir).stepN w.dir i).z.toNat) := by
      intro i hi
      have hin1 := (hok (i + 1) (by simp only [List.length_cons]; omega)).1
      rw [← stepN_succ]
      exact stepN_toNat_ne0 h0.1 hin1
    rw [hsplit]
    refine ⟨?_, ?_, ?_⟩
    · intro i hi
      cases i with
      | zero =>
        have huntouched := ihr.2.1 c.x.toNat c.y.toNat c.z.toNat havoid0
        have hval : ((g.setSolAt c ch).cells c.x.toNat c.y.toNat c.z.toNat).sol = some ch := by
          rw [setSolAt_cells, if_pos ⟨rfl, rfl, rfl⟩]
        have hcell : ((placeWordGo w (g.setSolAt c ch) (c.stepBy w.dir) rest).1.cellAt c).sol =
            some ch := by
          rw [Grid.cellAt, Grid.cell, huntouched]
          exact hval
        rw [stepN_zero]
        simpa using hcell
      | succ j =>
        have hj : j < rest.length := by simp only [List.length_cons] at hi; omega
        have hjr := ihr.1 j hj
        rw [stepN_succ]
        simpa using hjr
    · intro a b c' havoid
      have havoid1 : ∀ i, i < rest.length →
          ¬(a = ((c.stepBy w.dir).stepN w.dir i).x.toNat ∧
            b = ((c.stepBy w.dir).stepN w.dir i).y.toNat ∧
            c' = ((c.stepBy w.dir).stepN w.dir i).z.toNat) := by
        intro i hi
        rw [← stepN_succ]
        exact havoid (i + 1) (by simp only [List.length_cons]; omega)
      have h1 := ihr.2.1 a b c' havoid1
      have h2 : (g.setSolAt c ch).cells a b c' = g.cells a b c' := by
        have h00 := havoid 0 (Nat.succ_pos _)
        rw [stepN_zero] at h00
        rw [setSolAt_cells, if_neg h00]
      exact h1.trans h2
    · have hcongr : conflictsFrom (g.setSolAt c ch) w.dir (c.stepBy w.dir) rest =
          conflictsFrom g w.dir (c.stepBy w.dir) rest := by
        refine conflictsFrom_congr g (g.setSolAt c ch) w.dir rest (c.stepBy w.dir)
          fun i hi => ?_
        have hin1 := (hok (i + 1) (by simp only [List.length_cons]; omega)).1
        have hne3 := stepN_toNat_ne0 (d := w.dir) (i := i) h0.1 hin1
        rw [← stepN_succ]
        simp only [Grid.cellAt, Grid.cell]
        rw [setSolAt_cells, if_neg fun hcon => hne3 ⟨hcon.1.symm, hcon.2.1.symm, hcon.2.2.symm⟩]
      rw [List.countP_append, ihr.2.2, hcongr, conflictsFrom_cons]
      congr 1
      cases hsol : (g.cellAt c).sol with
      | none => rfl
      | some had =>
        by_cases hhc : had = ch
        · simp [hhc]
        · simp [hhc, List.countP_cons, Diag.isConflict]

/-- C6: loading a Format A record holding two words whose clean runs cross
at exactly one shared in-bounds open cell, with disagreeing letters there,
produces exactly one crossing-conflict diagnostic, leaves the letter of the
later-processed word in the shared cell, and still writes every letter of
the remaining (second) word. -/
theorem crossing_conflict_single (r : PuzzleRecord) (w1 w2 : WordRec)
    (hw : r.words = [w1, w2])
    (hrun1 : ∀ i, i < (toUpperAnswer w1.answer).length →
      inBoundsAt (loadBase r) (w1.start.stepN w1.dir i) = true ∧
        ((loadBase r).cellAt (w1.start.stepN w1.dir i)).block = false)
    (hrun2 : ∀ j, j < (toUpperAnswer w2.answer).length →
      inBoundsAt (loadBase r) (w2.start.stepN w2.dir j) = true ∧
        ((loadBase r).cellAt (w2.start.stepN w2.dir j)).block = false)
    (i0 j0 : Nat) (hi0 : i0 < (toUpperAnswer w1.answer).length)
    (hj0 : j0 < (toUpperAnswer w2.answer).length)
    (hmeet : w1.start.stepN w1.dir i0 = w2.start.stepN w2.dir j0)
    (huniq : ∀ i, i < (toUpperAnswer w1.answer).length →
      ∀ j, j < (toUpperAnswer w2.answer).length →
        w1.start.stepN w1.dir i = w2.start.stepN w2.dir j → i = i0 ∧ j = j0)
    (hdiff : (toUpperAnswer w1.answer).getD i0 'A' ≠ (toUpperAnswer w2.answer).getD j0 'A') :
    (loadPuzzleFromJSON r).diags.countP Diag.isConflict = 1 ∧
      ((loadPuzzleFromJSON r).grid.cellAt (w2.start.stepN w2.dir j0)).sol =
        some ((toUpperAnswer w2.answer).getD j0 'A') ∧
      (∀ j, j < (toUpperAnswer w2.answer).length →
        ((loadPuzzleFromJSON r).grid.cellAt (w2.start.stepN w2.dir j)).sol =
          some ((toUpperAnswer w2.answer).getD j 'A')) := by
  have hne : r.words.isEmpty = false := by rw [hw]; rfl
  rw [loadPuzzleFromJSON_formatA r hne, hw]
  have hc1 := placeWordGo_clean w1 (toUpperAnswer w1.answer) (loadBase r) w1.start hrun1
  have hdimsA := (placeWordGo_fields w1 (toUpperAnswer w1.answer) (loadBase r) w1.start 0 0 0).1
  have hok2 : ∀ j, j < (toUpperAnswer w2.answer).length →
      inBoundsAt (placeWordGo w1 (loadBase r) w1.start (toUpperAnswer w1.answer)).1
          (w2.start.stepN w2.dir j) = true ∧
        ((placeWordGo w1 (loadBase r) w1.start (toUpperAnswer w1.answer)).1.cellAt
          (w2.start.stepN w2.dir j)).block = false := by
    intro j hj
    refine ⟨(inBoundsAt_eq_of_dims hdimsA.1 hdimsA.2.1 hdimsA.2.2 _).trans (hrun2 j hj).1, ?_⟩
    have hb := (placeWordGo_fields w1 (toUpperAnswer w1.answer) (loadBase r) w1.start
      (w2.start.stepN w2.dir j).x.toNat (w2.start.stepN w2.dir j).y.toNat
      (w2.start.stepN w2.dir j).z.toNat).2.1
    rw [Grid.cellAt, Grid.cell, hb]
    have hb2 := (hrun2 j hj).2
    rw [Grid.cellAt, Grid.cell] at hb2
    exact hb2
  have hc2 := placeWordGo_clean w2 (toUpperAnswer w2.answer)
    (placeWordGo w1 (loadBase r) w1.start (toUpperAnswer w1.answer)).1 w2.start hok2
  have hsolj0 : ((placeWordGo w1 (loadBase r) w1.start (toUpperAnswer w1.answer)).1.cellAt
      (w2.start.stepN w2.dir j0)).sol = some ((toUpperAnswer w1.answer).getD i0 'A') := by
    rw [← hmeet]
    exact hc1.1 i0 hi0
  have hsolother : ∀ j, j < (toUpperAnswer w2.answer).length → j ≠ j0 →
      ((placeWordGo w1 (loadBase r) w1.start (toUpperAnswer w1.answer)).1.cellAt
        (w2.start.stepN w2.dir j)).sol = none := by
    intro j hj hjne
    have havoid : ∀ i, i < (toUpperAnswer w1.answer).length →
        ¬((w2.start.stepN w2.dir j).x.toNat = (w1.start.stepN w1.dir i).x.toNat ∧
          (w2.start.stepN w2.dir j).y.toNat = (w1.start.stepN w1.dir i).y.toNat ∧
          (w2.start.stepN w2.dir j).z.toNat = (w1.start.stepN w1.dir i).z.toNat) := by
      intro i hi hcon
      have heq := coord_eq_of_toNat_eq (hrun2 j hj).1 (hrun1 i hi).1
        hcon.1 hcon.2.1 hcon.2.2
      exact hjne (huniq i hi j hj heq.symm).2
    have huntouched := hc1.2.1 (w2.start.stepN w2.dir j).x.toNat
      (w2.start.stepN w2.dir j).y.toNat (w2.start.stepN w2.dir j).z.toNat havoid
    rw [Grid.cellAt, Grid.cell, huntouched]
    have hn := loadBase_sol_none r (w2.start.stepN w2.dir j) (hrun2 j hj).1
    rw [Grid.cellAt, Grid.cell] at hn
    exact hn
  have hcnt1 : (placeWordGo w1 (loadBase r) w1.start (toUpperAnswer w1.answer)).2.countP
      Diag.isConflict = 0 := by
    rw [hc1.2.2]
    exact conflictsFrom_eq_zero (loadBase r) w1.dir (toUpperAnswer w1.answer) w1.start
      fun i hi => loadBase_sol_none r _ (hrun1 i hi).1
  have hcnt2 : (placeWordGo w2 (placeWordGo w1 (loadBase r) w1.start
      (toUpperAnswer w1.answer)).1 w2.start (toUpperAnswer w2.answer)).2.countP
      Diag.isConflict = 1 := by
    rw [hc2.2.2]
    exact conflictsFrom_single _ w2.dir ((toUpperAnswer w1.answer).getD i0 'A')
      (toUpperAnswer w2.answer) w2.start j0 hj0 hsolj0 hdiff hsolother
  have hcount : ((placeWordGo w1 (loadBase r) w1.start (toUpperAnswer w1.answer)).2 ++
      (placeWordGo w2 (placeWordGo w1 (loadBase r) w1.start (toUpperAnswer w1.answer)).1
        w2.start (toUpperAnswer w2.answer)).2).countP Diag.isConflict = 1 := by
    rw [List.countP_append, hcnt1, hcnt2]
  have hfin : ∀ j, j < (toUpperAnswer w2.answer).length →
      ((setNums (placeWordGo w2 (placeWordGo w1 (loadBase r) w1.start
          (toUpperAnswer w1.answer)).1 w2.start (toUpperAnswer w2.answer)).1
        (buildCluesA [w1, w2]).1).cellAt (w2.start.stepN w2.dir j)).sol =
        some ((toUpperAnswer w2.answer).getD j 'A') := by
    intro j hj
    rw [Grid.cellAt, Grid.cell, (setNums_cells _ _ _ _ _).2.2.2.1]
    have hs := hc2.1 j hj
    rw [Grid.cellAt, Grid.cell] at hs
    exact hs
  exact ⟨hcount, hfin j0 hj0, hfin⟩

theorem crossing_conflict_single_witness :
    (loadPuzzleFromJSON ⟨3, 3, 1, [], [⟨.R, ⟨0, 0, 0⟩, ['a', 'b'], none⟩,
        ⟨.D, ⟨0, 0, 0⟩, ['c', 'd'], none⟩], [], none⟩).diags.countP Diag.isConflict = 1 ∧
      ((loadPuzzleFromJSON ⟨3, 3, 1, [], [⟨.R, ⟨0, 0, 0⟩, ['a', 'b'], none⟩,
          ⟨.D, ⟨0, 0, 0⟩, ['c', 'd'], none⟩], [], none⟩).grid.cellAt
        ((⟨0, 0, 0⟩ : Coord3).stepN Dir.D 0)).sol =
        some ((toUpperAnswer ['c', 'd']).getD 0 'A') := by
  have h := crossing_conflict_single
    ⟨3, 3, 1, [], [⟨.R, ⟨0, 0, 0⟩, ['a', 'b'], none⟩,
      ⟨.D, ⟨0, 0, 0⟩, ['c', 'd'], none⟩], [], none⟩
    ⟨.R, ⟨0, 0, 0⟩, ['a', 'b'], none⟩ ⟨.D, ⟨0, 0, 0⟩, ['c', 'd'], none⟩
    rfl (by decide) (by decide) 0 0 (by decide) (by decide) (by decide) (by decide) (by decide)
  exact ⟨h.1, h.2.1⟩

/-- Iterating the flood-fill round commutes with one extra round. -/
theorem floodIter_comm (w h : Nat) (op : Nat → Nat → Bool) :
    ∀ (n : Nat) (vis : Nat → Nat → Bool),
      floodIter w h op n (expand2D w h op vis) =
        expand2D w h op (floodIter w h op n vis) := by
  intro n
  induction n with
  | zero => intro vis; rfl
  | succ k ih =>
    intro vis
    show floodIter w h op k (expand2D w h op (expand2D w h op vis)) =
      expand2D w h op (floodIter w h op k (expand2D w h op vis))
    exact ih (expand2D w h op vis)

/-- On a slice whose in-range cells are all open, n flood rounds from the
seed reach every cell within Manhattan distance n of the seed. -/
theorem floodIter_reach (w h : Nat) (op : Nat → Nat → Bool)
    (hop : ∀ u v, u < w → v < h → op u v = true) (s1 s2 : Nat) (hs1 : s1 < w) (hs2 : s2 < h) :
    ∀ (n u v : Nat), u < w → v < h → Nat.dist u s1 + Nat.dist v s2 ≤ n →
      floodIter w h op n (fun a b => decide (a = s1) && decide (b = s2)) u v = true := by
  intro n
  induction n with
  | zero =>
    intro u v hu hv hd
    simp only [Nat.dist] at hd
    have hu1 : u = s1 := by omega
    have hv1 : v = s2 := by omega
    subst hu1
    subst hv1
    simp [floodIter]
  | succ n ih =>
    intro u v hu hv hd
    have hstep : floodIter w h op (n + 1) (fun a b => decide (a = s1) && decide (b = s2)) =
        expand2D w h op (floodIter w h op n fun a b => decide (a = s1) && decide (b = s2)) :=
      floodIter_comm w h op n _
    rw [hstep]
    simp only [expand2D, Bool.or_eq_true, Bool.and_eq_true, decide_eq_true_eq]
    by_cases hcase : Nat.dist u s1 + Nat.dist v s2 ≤ n
    · exact Or.inl (ih u v hu hv hcase)
    · have hop1 : op u v = true := hop u v hu hv
      by_cases h1 : s1 < u
      · have hne : Nat.dist (u - 1) s1 + Nat.dist v s2 ≤ n := by
          simp only [Nat.dist] at hd hcase ⊢
          omega
        have hvis := ih (u - 1) v (by omega) hv hne
        exact Or.inr ⟨hop1, Or.inl (Or.inl (Or.inr ⟨by omega, hvis⟩))⟩
      · by_cases h2 : u < s1
        · have hne : Nat.dist (u + 1) s1 + Nat.dist v s2 ≤ n := by
            simp only [Nat.dist] at hd hcase ⊢
            omega
          have hvis := ih (u + 1) v (by omega) hv hne
          exact Or.inr ⟨hop1, Or.inl (Or.inl (Or.inl ⟨by omega, hvis⟩))⟩
        · by_cases h3 : s2 < v
          · have hne : Nat.dist u s1 + Nat.dist (v - 1) s2 ≤ n := by
              simp only [Nat.dist] at hd hcase ⊢
              omega
            have hvis := ih u (v - 1) hu (by omega) hne
            exact Or.inr ⟨hop1, Or.inr ⟨by omega, hvis⟩⟩
          · by_cases h4 : v < s2
            · have hne : Nat.dist u s1 + Nat.dist (v + 1) s2 ≤ n := by
                simp only [Nat.dist] at hd hcase ⊢
                omega
              have hvis := ih u (v + 1) hu (by omega) hne
              exact Or.inr ⟨hop1, Or.inl (Or.inr ⟨by omega, hvis⟩)⟩
            · exfalso
              simp only [Nat.dist] at hcase
              omega

/-- A nonempty slice whose in-range cells are all open passes the
connectivity check: the flood fill reaches everything. -/
theorem isConnected2D_allOpen (w h : Nat) (op : Nat → Nat → Bool) (hw : 1 ≤ w) (hh : 1 ≤ h)
    (hop : ∀ u v, u < w → v < h → op u v = true) : isConnected2D w h op = true := by
  have hmem0 : ((0 : Nat), (0 : Nat)) ∈ cells2D w h := mem_cells2D.2 ⟨hw, hh⟩
  have hsome : ((cells2D w h).find? fun p => op p.1 p.2).isSome := by
    rw [List.find?_isSome]
    exact ⟨(0, 0), hmem0, hop 0 0 hw hh⟩
  obtain ⟨s, hs⟩ := Option.isSome_iff_exists.1 hsome
  have hsb := mem_cells2D.1 (List.mem_of_find?_eq_some hs)
  have hwh : ∀ p : Nat × Nat, p ∈ cells2D w h →
      Nat.dist p.1 s.1 + Nat.dist p.2 s.2 ≤ w * h := by
    intro p hp
    obtain ⟨h1, h2⟩ := mem_cells2D.1 hp
    obtain ⟨a, rfl⟩ : ∃ a, w = a + 1 := ⟨w - 1, by omega⟩
    obtain ⟨b, rfl⟩ : ∃ b, h = b + 1 := ⟨h - 1, by omega⟩
    have hmul : (a + 1) * (b + 1) = a * b + a + b + 1 := by ring
    simp only [Nat.dist]
    rw [hmul]
    have hs1 := hsb.1
    have hs2 := hsb.2
    generalize a * b = k
    omega
  simp only [isConnected2D, hs]
  rw [decide_eq_true_eq]
  have hl1 : ((cells2D w h).countP fun p =>
      floodIter w h op (w * h) (fun u v => decide (u = s.1) && decide (v = s.2)) p.1 p.2) =
      (cells2D w h).length := by
    rw [List.countP_eq_length]
    intro p hp
    obtain ⟨h1, h2⟩ := mem_cells2D.1 hp
    exact floodIter_reach w h op hop s.1 s.2 hsb.1 hsb.2 (w * h) p.1 p.2 h1 h2 (hwh p hp)
  have hl2 : ((cells2D w h).countP fun p => op p.1 p.2) = (cells2D w h).length := by
    rw [List.countP_eq_length]
    intro p hp
    obtain ⟨h1, h2⟩ := mem_cells2D.1 hp
    exact hop p.1 p.2 h1 h2
  rw [hl1, hl2]

/-- An XY open count through a different z layer is unchanged by one
setBlock write. -/
theorem sliceOpenCountXY_setBlock (g : Grid) (x y z : Nat) (b : Bool) (z' : Nat)
    (hne : z' ≠ z) :
    sliceOpenCountXY (g.setBlock x y z b) z' = sliceOpenCountXY g z' := by
  rw [sliceOpenCountXY, sliceOpenCountXY, setBlock_NX, setBlock_NY]
  apply List.countP_congr
  intro p hp
  show (!((g.setBlock x y z b).cell p.1 p.2 z').block) = true ↔
    (!(g.cell p.1 p.2 z').block) = true
  have hcell : (g.setBlock x y z b).cell p.1 p.2 z' = g.cell p.1 p.2 z' := by
    rw [Grid.cell, Grid.cell, Grid.setBlock, modifyCell_cells,
      if_neg fun hcon => hne hcon.2.2]
  rw [hcell]

/-- An XZ open count through a different y layer is unchanged by one
setBlock write. -/
theorem sliceOpenCountXZ_setBlock (g : Grid) (x y z : Nat) (b : Bool) (y' : Nat)
    (hne : y' ≠ y) :
    sliceOpenCountXZ (g.setBlock x y z b) y' = sliceOpenCountXZ g y' := by
  rw [sliceOpenCountXZ, sliceOpenCountXZ, setBlock_NX, setBlock_NZ]
  apply List.countP_congr
  intro p hp
  show (!((g.setBlock x y z b).cell p.1 y' p.2).block) = true ↔
    (!(g.cell p.1 y' p.2).block) = true
  have hcell : (g.setBlock x y z b).cell p.1 y' p.2 = g.cell p.1 y' p.2 := by
    rw [Grid.cell, Grid.cell, Grid.setBlock, modifyCell_cells,
      if_neg fun hcon => hne hcon.2.1]
  rw [hcell]

/-- A YZ open count through a different x layer is unchanged by one
setBlock write. -/
theorem sliceOpenCountYZ_setBlock (g : Grid) (x y z : Nat) (b : Bool) (x' : Nat)
    (hne : x' ≠ x) :
    sliceOpenCountYZ (g.setBlock x y z b) x' = sliceOpenCountYZ g x' := by
  rw [sliceOpenCountYZ, sliceOpenCountYZ, setBlock_NY, setBlock_NZ]
  apply List.countP_congr
  intro p hp
  show (!((g.setBlock x y z b).cell x' p.1 p.2).block) = true ↔
    (!(g.cell x' p.1 p.2).block) = true
  have hcell : (g.setBlock x y z b).cell x' p.1 p.2 = g.cell x' p.1 p.2 := by
    rw [Grid.cell, Grid.cell, Grid.setBlock, modifyCell_cells,
      if_neg fun hcon => hne hcon.1]
  rw [hcell]

/-- The four conjuncts of an accepted generator trial. -/
theorem genAccept_elim {minOpen : Nat} {g : Grid} {x y z : Nat}
    (h : genAccept minOpen g x y z = true) :
    minOpen ≤ sliceOpenCountXY g z ∧ minOpen ≤ sliceOpenCountXZ g y ∧
      minOpen ≤ sliceOpenCountYZ g x ∧ allSlicesConnected g = true := by
  simp only [genAccept, Bool.and_eq_true, decide_eq_true_eq] at h
  tauto

/-- The generator loop never changes the dimensions. -/
theorem genLoop_dims (minOpen target : Nat) (picks : List (Nat × Nat × Nat)) :
    ∀ (g : Grid) (blocks tries : Nat),
      (generateConnectedBlocks minOpen target picks g blocks tries).1.NX = g.NX ∧
        (generateConnectedBlocks minOpen target picks g blocks tries).1.NY = g.NY ∧
        (generateConnectedBlocks minOpen target picks g blocks tries).1.NZ = g.NZ := by
  induction picks with
  | nil =>
    intro g blocks tries
    rw [generateConnectedBlocks]
    exact ⟨rfl, rfl, rfl⟩
  | cons p rest ih =>
    intro g blocks tries
    rw [generateConnectedBlocks]
    by_cases hlt : blocks < target
    · rw [if_pos hlt]
      by_cases hblk : (g.cell p.1 p.2.1 p.2.2).block = true
      · rw [if_pos hblk]
        exact ih g blocks (tries + 1)
      · rw [if_neg hblk]
        by_cases hacc : genAccept minOpen (g.setBlock p.1 p.2.1 p.2.2 true) p.1 p.2.1 p.2.2 =
            true
        · rw [if_pos hacc]
          exact ih (g.setBlock p.1 p.2.1 p.2.2 true) (blocks + 1) (tries + 1)
        · rw [if_neg hacc]
          exact ih g blocks (tries + 1)
    · rw [if_neg hlt]
      exact ⟨rfl, rfl, rfl⟩

/-- The generator loop preserves the slice invariants: an accepted trial
passes the three open counts through the touched cell and the full
connectivity check, every untouched slice keeps its count, and rejected
or skipped trials leave the grid alone. -/
theorem genLoop_invariant (minOpen target : Nat) (picks : List (Nat × Nat × Nat)) :
    ∀ (g : Grid) (blocks tries : Nat),
      (∀ z, z < g.NZ → minOpen ≤ sliceOpenCountXY g z) →
      (∀ y, y < g.NY → minOpen ≤ sliceOpenCountXZ g y) →
      (∀ x, x < g.NX → minOpen ≤ sliceOpenCountYZ g x) →
      allSlicesConnected g = true →
      ((∀ z, z < (generateConnectedBlocks minOpen target picks g blocks tries).1.NZ →
          minOpen ≤ sliceOpenCountXY
            (generateConnectedBlocks minOpen target picks g blocks tries).1 z) ∧
        (∀ y, y < (generateConnectedBlocks minOpen target picks g blocks tries).1.NY →
          minOpen ≤ sliceOpenCountXZ
            (generateConnectedBlocks minOpen target picks g blocks tries).1 y) ∧
        (∀ x, x < (generateConnectedBlocks minOpen target picks g blocks tries).1.NX →
          minOpen ≤ sliceOpenCountYZ
            (generateConnectedBlocks minOpen target picks g blocks tries).1 x) ∧
        allSlicesConnected (generateConnectedBlocks minOpen target picks g blocks tries).1 =
          true) := by
  induction picks with
  | nil =>
    intro g blocks tries h1 h2 h3 h4
    rw [generateConnectedBlocks]
    exact ⟨h1, h2, h3, h4⟩
  | cons p rest ih =>
    intro g blocks tries h1 h2 h3 h4
    rw [generateConnectedBlocks]
    by_cases hlt : blocks < target
    · rw [if_pos hlt]
      by_cases hblk : (g.cell p.1 p.2.1 p.2.2).block = true
      · rw [if_pos hblk]
        exact ih g blocks (tries + 1) h1 h2 h3 h4
      · rw [if_neg hblk]
        by_cases hacc : genAccept minOpen (g.setBlock p.1 p.2.1 p.2.2 true) p.1 p.2.1 p.2.2 =
            true
        · rw [if_pos hacc]
          obtain ⟨a1, a2, a3, a4⟩ := genAccept_elim hacc
          refine ih (g.setBlock p.1 p.2.1 p.2.2 true) (blocks + 1) (tries + 1) ?_ ?_ ?_ a4
          · intro z hzlt
            by_cases hz : z = p.2.2
            · rw [hz]
              exact a1
            · rw [sliceOpenCountXY_setBlock g p.1 p.2.1 p.2.2 true z hz]
              exact h1 z hzlt
          · intro y hylt
            by_cases hy : y = p.2.1
            · rw [hy]
              exact a2
            · rw [sliceOpenCountXZ_setBlock g p.1 p.2.1 p.2.2 true y hy]
              exact h2 y hylt
          · intro x hxlt
            by_cases hxp : x = p.1
            · rw [hxp]
              exact a3
            · rw [sliceOpenCountYZ_setBlock g p.1 p.2.1 p.2.2 true x hxp]
              exact h3 x hxlt
        · rw [if_neg hacc]
          exact ih g blocks (tries + 1) h1 h2 h3 h4
    · rw [if_neg hlt]
      exact ⟨h1, h2, h3, h4⟩

theorem sliceOpenCountXY_emptyWorld (nx ny nz z : Nat) :
    sliceOpenCountXY (emptyWorld nx ny nz) z = ny * nx := by
  rw [sliceOpenCountXY, emptyWorld_NX, emptyWorld_NY, ← length_cells2D nx ny]
  rw [List.countP_eq_length]
  intro p hp
  rfl

theorem sliceOpenCountXZ_emptyWorld (nx ny nz y : Nat) :
    sliceOpenCountXZ (emptyWorld nx ny nz) y = nz * nx := by
  rw [sliceOpenCountXZ, emptyWorld_NX, emptyWorld_NZ, ← length_cells2D nx nz]
  rw [List.countP_eq_length]
  intro p hp
  rfl

theorem sliceOpenCountYZ_emptyWorld (nx ny nz x : Nat) :
    sliceOpenCountYZ (emptyWorld nx ny nz) x = nz * ny := by
  rw [sliceOpenCountYZ, emptyWorld_NY, emptyWorld_NZ, ← length_cells2D ny nz]
  rw [List.countP_eq_length]
  intro p hp
  rfl

/-- The all-open world passes every slice-connectivity check as soon as
all three dimensions are positive. -/
theorem allSlicesConnected_emptyWorld (nx ny nz : Nat) (hx : 1 ≤ nx) (hy : 1 ≤ ny)
    (hz : 1 ≤ nz) : allSlicesConnected (emptyWorld nx ny nz) = true := by
  rw [allSlicesConnected]
  simp only [Bool.and_eq_true, List.all_eq_true]
  refine ⟨⟨?_, ?_⟩, ?_⟩
  · intro z hzmem
    show isConnectedXY (emptyWorld nx ny nz) z = true
    rw [isConnectedXY]
    exact isConnected2D_allOpen nx ny _ hx hy fun u v _ _ => rfl
  · intro y hymem
    show isConnectedXZ (emptyWorld nx ny nz) y = true
    rw [isConnectedXZ]
    exact isConnected2D_allOpen nx nz _ hx hz fun u v _ _ => rfl
  · intro x hxmem
    show isConnectedYZ (emptyWorld nx ny nz) x = true
    rw [isConnectedYZ]
    exact isConnected2D_allOpen ny nz _ hy hz fun u v _ _ => rfl

/-- C1: whatever grid the generator loop returns (run to completion from
the all-open world, any pick stream and attempt budget), every slice of
all three axis families keeps an open count of at least minOpenPerSlice
and passes the single-component flood-fill connectivity check, provided
the dimensions are positive and minOpenPerSlice fits in each slice area. -/
theorem generator_slice_invariants (nx ny nz minOpen target : Nat)
    (picks : List (Nat × Nat × Nat)) (hx : 1 ≤ nx) (hy : 1 ≤ ny) (hz : 1 ≤ nz)
    (hbxy : minOpen ≤ nx * ny) (hbxz : minOpen ≤ nx * nz) (hbyz : minOpen ≤ ny * nz) :
    (∀ z, z < nz → minOpen ≤ sliceOpenCountXY
        (generateConnectedBlocks minOpen target picks (emptyWorld nx ny nz) 0 0).1 z) ∧
      (∀ y, y < ny → minOpen ≤ sliceOpenCountXZ
        (generateConnectedBlocks minOpen target picks (emptyWorld nx ny nz) 0 0).1 y) ∧
      (∀ x, x < nx → minOpen ≤ sliceOpenCountYZ
        (generateConnectedBlocks minOpen target picks (emptyWorld nx ny nz) 0 0).1 x) ∧
      allSlicesConnected
        (generateConnectedBlocks minOpen target picks (emptyWorld nx ny nz) 0 0).1 = true := by
  have hinit1 : ∀ z, z < (emptyWorld nx ny nz).NZ →
      minOpen ≤ sliceOpenCountXY (emptyWorld nx ny nz) z := by
    intro z _
    rw [sliceOpenCountXY_emptyWorld, Nat.mul_comm]
    exact hbxy
  have hinit2 : ∀ y, y < (emptyWorld nx ny nz).NY →
      minOpen ≤ sliceOpenCountXZ (emptyWorld nx ny nz) y := by
    intro y _
    rw [sliceOpenCountXZ_emptyWorld, Nat.mul_comm]
    exact hbxz
  have hinit3 : ∀ x, x < (emptyWorld nx ny nz).NX →
      minOpen ≤ sliceOpenCountYZ (emptyWorld nx ny nz) x := by
    intro x _
    rw [sliceOpenCountYZ_emptyWorld, Nat.mul_comm]
    exact hbyz
  have h0 := genLoop_invariant minOpen target picks (emptyWorld nx ny nz) 0 0
    hinit1 hinit2 hinit3 (allSlicesConnected_emptyWorld nx ny nz hx hy hz)
  have hdims := genLoop_dims minOpen target picks (emptyWorld nx ny nz) 0 0
  refine ⟨fun z hzlt => h0.1 z ?_, fun y hylt => h0.2.1 y ?_, fun x hxlt => h0.2.2.1 x ?_,
    h0.2.2.2⟩
  · rw [hdims.2.2]
    exact hzlt
  · rw [hdims.2.1]
    exact hylt
  · rw [hdims.1]
    exact hxlt

theorem generator_slice_invariants_witness :
    1 ≤ sliceOpenCountXY (generateConnectedBlocks 1 1 [(0, 0, 0)] (emptyWorld 2 2 1) 0 0).1 0 ∧
      allSlicesConnected (generateConnectedBlocks 1 1 [(0, 0, 0)] (emptyWorld 2 2 1) 0 0).1 =
        true := by
  have h := generator_slice_invariants 2 2 1 1 1 [(0, 0, 0)] (by decide) (by decide)
    (by decide) (by decide) (by decide) (by decide)
  exact ⟨h.1 0 (by decide), h.2.2.2⟩

end Cross3D
